import Mathlib

/-!
Verification of the FormAgent markdown-table pipeline.

This file gives a shallow embedding of the table codec and form-update
logic of the repository (`app/doc_handlers/excel.py`, `app/doc_handlers/ocr.py`,
`app/form/update.py`, `app/form/status.py`, `app/chat_agent/excel_helpers.py`)
and proves or refutes the frozen claims about it.

Strings are modelled as lists of characters; the Python string helpers
(`strip`, `split`, `in`, `replace`, slicing) are embedded as executable
functions below.  Pandas / tabulate behaviour (`DataFrame.to_markdown`,
`pd.read_table` with `sep='|'`, `pd.to_numeric`) is embedded for the
fragment actually exercised by the code: pipe-separated fields, blank-line
skipping, NaN for empty fields, whole-column dtype inference, and per-cell
numeric coercion.  Numbers are modelled as exact rationals (decimal
literals with optional sign and fraction part); float formatting and
special tokens such as `NaN`/`inf` are outside the model.
-/

/-- Python `str.isspace` characters relevant to `str.strip()` (ASCII subset):
space, tab, newline, carriage return, vertical tab, form feed. -/
def isPySpace (c : Char) : Bool :=
  c.toNat == 32 || c.toNat == 9 || c.toNat == 10 || c.toNat == 13 ||
    c.toNat == 11 || c.toNat == 12

/-- Python `s.strip()` on a character list. -/
def pyStrip (l : List Char) : List Char :=
  ((l.dropWhile isPySpace).reverse.dropWhile isPySpace).reverse

/-- Leading-whitespace removal; models pandas `skipinitialspace=True` and
Python `lstrip`-like trimming of fields. -/
def pyLStrip (l : List Char) : List Char := l.dropWhile isPySpace

/-- Python `s.strip(c)` for a single character (strips all copies of `c`
from both ends). -/
def pyStripChar (c : Char) (l : List Char) : List Char :=
  ((l.dropWhile (· == c)).reverse.dropWhile (· == c)).reverse

/-- Python `s.split(c)` for a one-character separator: splits on every
occurrence, keeping empty parts, and yields `[s]` when `c` does not occur. -/
def splitOnChar (c : Char) : List Char → List (List Char)
  | [] => [[]]
  | x :: xs =>
    match splitOnChar c xs with
    | [] => [[]]
    | y :: ys => if x = c then [] :: y :: ys else (x :: y) :: ys

/-- Does `l` start with the pattern `pat`?  Models Python `startswith`. -/
def startsWithSeq : List Char → List Char → Bool
  | [], _ => true
  | _ :: _, [] => false
  | p :: ps, x :: xs => p == x && startsWithSeq ps xs

/-- Python `pat in s` substring test. -/
def containsSeq (pat : List Char) : List Char → Bool
  | [] => startsWithSeq pat []
  | x :: xs => startsWithSeq pat (x :: xs) || containsSeq pat xs

/-- First occurrence of `pat` in `l`: returns the part before the match and
the part after it.  Models `re.search` on a literal pattern. -/
def findSeq (pat : List Char) : List Char → Option (List Char × List Char)
  | [] => if startsWithSeq pat [] then some ([], []) else none
  | x :: xs =>
    if startsWithSeq pat (x :: xs) then some ([], (x :: xs).drop pat.length)
    else (findSeq pat xs).map (fun p => (x :: p.1, p.2))

/-- Fuel-driven worker for `removeSeq`; the fuel bounds the number of scan
steps and `l.length` steps always suffice. -/
def removeSeqAux (pat : List Char) : Nat → List Char → List Char
  | 0, l => l
  | _ + 1, [] => []
  | fuel + 1, x :: xs =>
    if pat ≠ [] ∧ startsWithSeq pat (x :: xs) then
      removeSeqAux pat fuel ((x :: xs).drop pat.length)
    else x :: removeSeqAux pat fuel xs

/-- Python `s.replace(pat, '')`: removes every (non-overlapping, leftmost)
occurrence of `pat`. -/
def removeSeq (pat l : List Char) : List Char := removeSeqAux pat l.length l

/-- Digit characters to numbers; behaviour is only relevant on `'0'`-`'9'`. -/
def charToDigit (c : Char) : Nat := c.toNat - 48

/-- Is `c` an ASCII decimal digit? -/
def isDigitChar (c : Char) : Bool := 48 ≤ c.toNat && c.toNat ≤ 57

/-- Value of a digit string, most significant first. -/
def charsToNat (l : List Char) : Nat :=
  l.foldl (fun acc c => acc * 10 + charToDigit c) 0

/-- Fuel-driven worker for `natToChars`; fuel `n + 1` always suffices. -/
def natToCharsAux : Nat → Nat → List Char
  | 0, _ => []
  | fuel + 1, n =>
    if n < 10 then [Char.ofNat (48 + n)]
    else natToCharsAux fuel (n / 10) ++ [Char.ofNat (48 + n % 10)]

/-- Decimal rendering of a natural number, as Python `str(n)` produces. -/
def natToChars (n : Nat) : List Char := natToCharsAux (n + 1) n

/-- Decimal rendering of an integer, as Python `str(i)` produces. -/
def intToChars : Int → List Char
  | Int.ofNat n => natToChars n
  | Int.negSucc m => '-' :: natToChars (m + 1)

-- ## Basic lemmas about the string helpers

theorem splitOnChar_ne_nil (c : Char) (l : List Char) : splitOnChar c l ≠ [] := by
  cases l with
  | nil => simp [splitOnChar]
  | cons x xs =>
    simp only [splitOnChar]
    rcases h : splitOnChar c xs with _ | ⟨y, ys⟩
    · simp
    · by_cases hx : x = c <;> simp [hx]

theorem splitOnChar_not_mem {c : Char} {l : List Char} (h : c ∉ l) :
    splitOnChar c l = [l] := by
  induction l with
  | nil => rfl
  | cons x xs ih =>
    simp only [List.mem_cons, not_or] at h
    simp only [splitOnChar, ih h.2]
    simp [Ne.symm h.1]

theorem splitOnChar_append_cons {c : Char} {xs : List Char} (ys : List Char)
    (h : c ∉ xs) : splitOnChar c (xs ++ c :: ys) = xs :: splitOnChar c ys := by
  induction xs with
  | nil =>
    simp only [List.nil_append, splitOnChar]
    rcases h2 : splitOnChar c ys with _ | ⟨z, zs⟩
    · exact absurd h2 (splitOnChar_ne_nil c ys)
    · simp
  | cons x xs ih =>
    simp only [List.mem_cons, not_or] at h
    have hdef : splitOnChar c ((x :: xs) ++ c :: ys) =
        match splitOnChar c (xs ++ c :: ys) with
        | [] => [[]]
        | y :: ys' => if x = c then [] :: y :: ys' else (x :: y) :: ys' := rfl
    rw [hdef, ih h.2]
    simp [Ne.symm h.1]

theorem splitOnChar_intercalate (c : Char) :
    ∀ fs : List (List Char), fs ≠ [] → (∀ f ∈ fs, c ∉ f) →
      splitOnChar c (List.intercalate [c] fs) = fs := by
  intro fs
  induction fs with
  | nil => intro h; exact absurd rfl h
  | cons f rest ih =>
    intro _ hmem
    cases rest with
    | nil =>
      simp only [List.intercalate, List.intersperse, List.flatten]
      simpa using splitOnChar_not_mem (hmem f (by simp))
    | cons g rest' =>
      have hrec := ih (by simp) (fun x hx => hmem x (List.mem_cons_of_mem f hx))
      have hf : c ∉ f := hmem f (by simp)
      have : List.intercalate [c] (f :: g :: rest') =
          f ++ c :: List.intercalate [c] (g :: rest') := by
        simp only [List.intercalate, List.intersperse]
        simp [List.flatten]
      rw [this, splitOnChar_append_cons _ hf, hrec]

theorem mem_of_mem_splitOnChar {c x : Char} :
    ∀ {l part : List Char}, part ∈ splitOnChar c l → x ∈ part → x ∈ l := by
  intro l
  induction l with
  | nil =>
    intro part hp hx
    simp only [splitOnChar, List.mem_singleton] at hp
    subst hp; exact absurd hx (List.not_mem_nil x)
  | cons y ys ih =>
    intro part hp hx
    rcases h : splitOnChar c ys with _ | ⟨z, zs⟩
    · exact absurd h (splitOnChar_ne_nil c ys)
    · replace hp : part ∈ (if y = c then [] :: z :: zs else (y :: z) :: zs) := by
        have hdef : splitOnChar c (y :: ys) =
            match splitOnChar c ys with
            | [] => [[]]
            | w :: ws => if y = c then [] :: w :: ws else (y :: w) :: ws := rfl
        rw [hdef, h] at hp
        exact hp
      by_cases hy : y = c
      · rw [if_pos hy] at hp
        rcases List.mem_cons.mp hp with hp | hp
        · subst hp; exact absurd hx (List.not_mem_nil x)
        · exact List.mem_cons_of_mem y (ih (by rw [h]; exact hp) hx)
      · rw [if_neg hy] at hp
        rcases List.mem_cons.mp hp with hp | hp
        · subst hp
          rcases List.mem_cons.mp hx with h1 | h1
          · exact h1 ▸ List.mem_cons_self y ys
          · exact List.mem_cons_of_mem y
              (ih (by rw [h]; exact List.mem_cons_self z zs) h1)
        · exact List.mem_cons_of_mem y
            (ih (by rw [h]; exact List.mem_cons_of_mem z hp) hx)

example : splitOnChar '|' "|a|b|".toList = ["".toList, "a".toList, "b".toList, "".toList] := by decide

example : pyStrip "  ab ".toList = "ab".toList := by decide

example : natToChars 120 = ['1', '2', '0'] := by decide

theorem dropWhile_append_of_all {p : Char → Bool} {a : List Char} (b : List Char)
    (h : ∀ x ∈ a, p x = true) : (a ++ b).dropWhile p = b.dropWhile p := by
  induction a with
  | nil => rfl
  | cons x xs ih =>
    have hx := h x (by simp)
    simp only [List.cons_append, List.dropWhile_cons, hx, if_pos]
    exact ih fun y hy => h y (List.mem_cons_of_mem x hy)

theorem dropWhile_append_of_ne_nil {p : Char → Bool} {a : List Char} (b : List Char)
    (h : a.dropWhile p ≠ []) : (a ++ b).dropWhile p = a.dropWhile p ++ b := by
  induction a with
  | nil => exact absurd rfl h
  | cons x xs ih =>
    by_cases hx : p x = true
    · simp only [List.dropWhile_cons, hx, if_pos] at h
      simp only [List.cons_append, List.dropWhile_cons, hx, if_pos]
      exact ih h
    · simp only [List.cons_append, List.dropWhile_cons, hx]
      simp

theorem dropWhile_idem {p : Char → Bool} (l : List Char) :
    (l.dropWhile p).dropWhile p = l.dropWhile p := by
  induction l with
  | nil => rfl
  | cons x xs ih =>
    by_cases hx : p x = true
    · simpa [List.dropWhile_cons, hx] using ih
    · simp [List.dropWhile_cons, hx]

theorem pyStrip_append_spaces {l : List Char} (pad : List Char)
    (hpad : ∀ c ∈ pad, isPySpace c = true) : pyStrip (l ++ pad) = pyStrip l := by
  by_cases hl : l.dropWhile isPySpace = []
  · have hall : ∀ c ∈ l ++ pad, isPySpace c = true := by
      intro c hc
      rcases List.mem_append.mp hc with hc | hc
      · exact List.dropWhile_eq_nil_iff.mp hl c hc
      · exact hpad c hc
    unfold pyStrip
    rw [List.dropWhile_eq_nil_iff.mpr hall, hl]
  · unfold pyStrip
    rw [dropWhile_append_of_ne_nil pad hl, List.reverse_append,
      dropWhile_append_of_all _ (by intro x hx; exact hpad x (List.mem_reverse.mp hx))]

theorem pyStrip_pyLStrip (l : List Char) : pyStrip (pyLStrip l) = pyStrip l := by
  unfold pyStrip pyLStrip
  rw [dropWhile_idem]

theorem parseNum_congr_aux {a b : List Char} (h : pyStrip a = pyStrip b) :
    ∀ m : List Char → List Char, (fun l => m (pyStrip l)) a = (fun l => m (pyStrip l)) b := by
  intro m; simp [h]

theorem pyLStrip_append_of_ne_nil {a : List Char} (b : List Char)
    (h : pyLStrip a ≠ []) : pyLStrip (a ++ b) = pyLStrip a ++ b :=
  dropWhile_append_of_ne_nil b h

theorem pyLStrip_all_spaces_append {a : List Char} (b : List Char)
    (h : ∀ c ∈ a, isPySpace c = true) : pyLStrip (a ++ b) = pyLStrip b :=
  dropWhile_append_of_all b h

-- ## Digit-string lemmas

theorem foldl_digits :
    ∀ (b : List Char) (init : Nat),
      b.foldl (fun acc c => acc * 10 + charToDigit c) init =
        init * 10 ^ b.length + charsToNat b := by
  intro b
  induction b with
  | nil => intro init; simp [charsToNat]
  | cons x xs ih =>
    intro init
    simp only [charsToNat, List.foldl_cons, List.length_cons, pow_succ]
    rw [ih (init * 10 + charToDigit x), ih (0 * 10 + charToDigit x)]
    ring

theorem charsToNat_append (a b : List Char) :
    charsToNat (a ++ b) = charsToNat a * 10 ^ b.length + charsToNat b := by
  unfold charsToNat
  rw [List.foldl_append]
  exact foldl_digits b _

theorem natToCharsAux_spec :
    ∀ fuel n, n < fuel →
      charsToNat (natToCharsAux fuel n) = n ∧
      (∀ c ∈ natToCharsAux fuel n, isDigitChar c = true) ∧
      natToCharsAux fuel n ≠ [] := by
  intro fuel
  induction fuel with
  | zero => intro n hn; omega
  | succ f ih =>
    intro n hn
    by_cases h10 : n < 10
    · simp only [natToCharsAux, if_pos h10]
      refine ⟨?_, ?_, by simp⟩
      · interval_cases n <;> decide
      · intro c hc
        simp only [List.mem_singleton] at hc
        subst hc
        interval_cases n <;> decide
    · have hdiv : n / 10 < f := by
        have h1 : n / 10 < n := Nat.div_lt_self (by omega) (by omega)
        omega
      obtain ⟨ih1, ih2, ih3⟩ := ih (n / 10) hdiv
      simp only [natToCharsAux, if_neg h10]
      have hm : n % 10 < 10 := Nat.mod_lt _ (by omega)
      refine ⟨?_, ?_, by simp⟩
      · rw [charsToNat_append, ih1]
        have : charsToNat [Char.ofNat (48 + n % 10)] = n % 10 := by
          set m := n % 10 with hmdef
          interval_cases m <;> decide
        rw [this]
        simp only [List.length_singleton, pow_one]
        omega
      · intro c hc
        rcases List.mem_append.mp hc with hc | hc
        · exact ih2 c hc
        · simp only [List.mem_singleton] at hc
          subst hc
          set m := n % 10 with hmdef
          interval_cases m <;> decide

theorem charsToNat_natToChars (n : Nat) : charsToNat (natToChars n) = n :=
  (natToCharsAux_spec (n + 1) n (by omega)).1

theorem natToChars_all_digits (n : Nat) :
    ∀ c ∈ natToChars n, isDigitChar c = true :=
  (natToCharsAux_spec (n + 1) n (by omega)).2.1

theorem natToChars_ne_nil (n : Nat) : natToChars n ≠ [] :=
  (natToCharsAux_spec (n + 1) n (by omega)).2.2

theorem digit_not_space {c : Char} (h : isDigitChar c = true) : isPySpace c = false := by
  simp only [isDigitChar, Bool.and_eq_true, decide_eq_true_eq] at h
  simp only [isPySpace, Bool.or_eq_false_iff, beq_eq_false_iff_ne, ne_eq]
  omega

theorem digit_ne_char {c : Char} (h : isDigitChar c = true) {d : Char}
    (hd : d.toNat < 48 ∨ 57 < d.toNat) : c ≠ d := by
  simp only [isDigitChar, Bool.and_eq_true, decide_eq_true_eq] at h
  intro he
  subst he
  omega

theorem pyStrip_all_non_space {l : List Char} (h : ∀ c ∈ l, isPySpace c = false) :
    pyStrip l = l := by
  have hfront : ∀ m : List Char, (∀ c ∈ m, isPySpace c = false) →
      m.dropWhile isPySpace = m := by
    intro m hm
    cases m with
    | nil => rfl
    | cons x xs => simp [List.dropWhile_cons, hm x (by simp)]
  unfold pyStrip
  rw [hfront l h, hfront l.reverse (fun c hc => h c (List.mem_reverse.mp hc)),
    List.reverse_reverse]

/-- Numeric parse of an unsigned decimal literal: digits with an optional
fractional part, as accepted by Python `float()` / `pd.to_numeric` (minus
exponents and special tokens, which are outside the model). -/
def parseUnsignedNum (l : List Char) : Option ℚ :=
  match splitOnChar '.' l with
  | [a] => if a ≠ [] ∧ a.all isDigitChar then some ((charsToNat a : ℚ)) else none
  | [a, b] =>
    if (a ≠ [] ∨ b ≠ []) ∧ a.all isDigitChar ∧ b.all isDigitChar then
      some ((charsToNat a : ℚ) + (charsToNat b : ℚ) / (10 : ℚ) ^ b.length)
    else none
  | _ => none

/-- Numeric parse with surrounding whitespace and an optional sign; models
the conversions used by pandas when typing a column and by
`pd.to_numeric(errors='coerce')` on a single cell. -/
def parseNum (l : List Char) : Option ℚ :=
  let t := pyStrip l
  if t.headD ' ' = '-' then (parseUnsignedNum t.tail).map (fun q => -q)
  else if t.headD ' ' = '+' then parseUnsignedNum t.tail
  else parseUnsignedNum t

theorem parseNum_congr {a b : List Char} (h : pyStrip a = pyStrip b) :
    parseNum a = parseNum b := by
  unfold parseNum
  rw [h]

theorem parseUnsignedNum_digits {a : List Char} (ha : a ≠ [])
    (hd : ∀ c ∈ a, isDigitChar c = true) :
    parseUnsignedNum a = some ((charsToNat a : ℚ)) := by
  have hdot : '.' ∉ a := fun hmem => by
    have h1 := hd '.' hmem
    have h2 : isDigitChar '.' = false := by decide
    rw [h2] at h1
    simp at h1
  have hc : (a ≠ [] ∧ a.all isDigitChar = true) := ⟨ha, List.all_eq_true.mpr hd⟩
  unfold parseUnsignedNum
  rw [splitOnChar_not_mem hdot]
  show (if a ≠ [] ∧ a.all isDigitChar = true then some ((charsToNat a : ℚ)) else none)
    = some ((charsToNat a : ℚ))
  rw [if_pos hc]

theorem parseNum_nat_pad (n : Nat) (pad : List Char)
    (hpad : ∀ c ∈ pad, isPySpace c = true) :
    parseNum (natToChars n ++ pad) = some ((n : ℚ)) := by
  have hd := natToChars_all_digits n
  have hne := natToChars_ne_nil n
  have hstrip : pyStrip (natToChars n ++ pad) = natToChars n := by
    rw [pyStrip_append_spaces pad hpad]
    exact pyStrip_all_non_space fun c hc => digit_not_space (hd c hc)
  unfold parseNum
  rw [hstrip]
  rcases hn : natToChars n with _ | ⟨c, cs⟩
  · exact absurd hn hne
  · have hcd : isDigitChar c = true := hd c (by rw [hn]; simp)
    have h1 : (c :: cs).headD ' ' ≠ '-' := by
      simp only [List.headD_cons]
      exact digit_ne_char hcd (by left; decide)
    have h2 : (c :: cs).headD ' ' ≠ '+' := by
      simp only [List.headD_cons]
      exact digit_ne_char hcd (by left; decide)
    rw [if_neg h1, if_neg h2, ← hn,
      parseUnsignedNum_digits hne hd, charsToNat_natToChars]

theorem parseNum_int_pad (i : ℤ) (pad : List Char)
    (hpad : ∀ c ∈ pad, isPySpace c = true) :
    parseNum (intToChars i ++ pad) = some ((i : ℚ)) := by
  cases i with
  | ofNat n =>
    have h2 : intToChars (Int.ofNat n) = natToChars n := rfl
    rw [h2, parseNum_nat_pad n pad hpad]
    norm_cast
  | negSucc m =>
    have hd := natToChars_all_digits (m + 1)
    have hne := natToChars_ne_nil (m + 1)
    have hstrip : pyStrip (intToChars (Int.negSucc m) ++ pad) =
        '-' :: natToChars (m + 1) := by
      rw [pyStrip_append_spaces pad hpad]
      refine pyStrip_all_non_space fun c hc => ?_
      rcases List.mem_cons.mp hc with hc | hc
      · subst hc; decide
      · exact digit_not_space (hd c hc)
    unfold parseNum
    rw [hstrip]
    simp only [List.headD_cons, if_pos rfl, List.tail_cons]
    rw [parseUnsignedNum_digits hne hd, charsToNat_natToChars]
    simp only [Option.map_some']
    congr 1

-- ## The logical table and the markdown codec

/-- A cell of a logical table: a string or an (integer-valued) number.
Floating-point cells are outside the model (their `to_markdown` rendering
uses C `%g` formatting, which is lossy and not representable exactly). -/
inductive Cell where
  | str (s : String)
  | num (n : Int)
deriving DecidableEq

/-- The canonical in-memory table of the spec: ordered column names and
ordered rows of cells. -/
structure LogicalTable where
  columns : List String
  rows : List (List Cell)
deriving DecidableEq

/-- Rendering of one cell value, as Python `str()` inside tabulate. -/
def renderCell : Cell → List Char
  | Cell.str s => s.data
  | Cell.num n => intToChars n

/-- Is the cell a number? -/
def cellIsNum : Cell → Bool
  | Cell.str _ => false
  | Cell.num _ => true

/-- The cells of column `j`, in row order. -/
def colCells (t : LogicalTable) (j : Nat) : List Cell :=
  t.rows.map (fun r => r.getD j (Cell.str ""))

/-- tabulate treats a column as numeric exactly when every value of the
column is a number (then it right-aligns the column and its header). -/
def colNumeric (t : LogicalTable) (j : Nat) : Bool :=
  (colCells t j).all cellIsNum

/-- tabulate's column width: the widest cell, but at least the header
width plus `MIN_PADDING = 2`. -/
def colWidth (t : LogicalTable) (j : Nat) : Nat :=
  max ((t.columns.getD j "").data.length + 2)
    (((colCells t j).map (fun c => (renderCell c).length)).foldr max 0)

/-- Left-pad with spaces to width `w` (right alignment). -/
def padListLeft (w : Nat) (l : List Char) : List Char :=
  List.replicate (w - l.length) ' ' ++ l

/-- Right-pad with spaces to width `w` (left alignment). -/
def padListRight (w : Nat) (l : List Char) : List Char :=
  l ++ List.replicate (w - l.length) ' '

/-- One padded field of a pipe-format line: one space of padding on each
side, numeric columns right-aligned, other columns left-aligned. -/
def renderField (numeric : Bool) (w : Nat) (content : List Char) : List Char :=
  ' ' :: (if numeric then padListLeft w content else padListRight w content) ++ [' ']

/-- A separator cell of the pipe format: `----:` for a numeric column,
`:----` otherwise, spanning the full field width `w + 2`. -/
def sepField (numeric : Bool) (w : Nat) : List Char :=
  if numeric then List.replicate (w + 1) '-' ++ [':']
  else ':' :: List.replicate (w + 1) '-'

/-- Assemble one markdown line from its pipe-separated fields:
`|f1|f2|...|fn|`. -/
def renderLine (fields : List (List Char)) : List Char :=
  List.intercalate ['|'] ([] :: (fields ++ [[]]))

/-- Model of `df.to_markdown(index=False)` (pandas delegating to tabulate's
`pipe` format), the per-sheet table rendering used by `excel_to_markdown`
(excel.py line 51): a header line, a separator line and one line per row,
with cells padded to the column width. -/
def to_markdown_table (t : LogicalTable) : String :=
  let js := List.range t.columns.length
  let headerLine := renderLine (js.map fun j =>
    renderField (colNumeric t j) (colWidth t j) (t.columns.getD j "").data)
  let sepLine := renderLine (js.map fun j => sepField (colNumeric t j) (colWidth t j))
  let dataLines := t.rows.map fun r => renderLine (js.map fun j =>
    renderField (colNumeric t j) (colWidth t j) (renderCell (r.getD j (Cell.str ""))))
  String.mk (List.intercalate ['\n'] (headerLine :: sepLine :: dataLines))

-- ## The decoder: model of markdown_to_df (excel.py lines 270-359)

/-- A decoded cell as pandas stores it: a missing value (NaN, produced by
empty fields), a number, or a string. -/
inductive DCell where
  | nan
  | num (q : ℚ)
  | str (s : String)
deriving DecidableEq

/-- A decoded data frame, column-major: ordered column names plus one cell
list per column. -/
structure Df where
  columns : List String
  colData : List (List DCell)
deriving DecidableEq

/-- Pandas parse failures caught by the Python code's `except` handlers. -/
inductive PdErr where
  | emptyData
  | tooManyFields
  | valueError (msg : String)
deriving DecidableEq

/-- pandas dtype inference at read time: a column whose every field is
empty or numeric is stored numerically (empty fields become NaN);
otherwise the column keeps its fields as strings (empty fields still
become NaN).  Special NA tokens such as `NaN`/`null` are outside the
model. -/
def typeColumn (fields : List (List Char)) : List DCell :=
  if fields.all (fun f => f.isEmpty || (parseNum f).isSome) then
    fields.map (fun f =>
      if f.isEmpty then DCell.nan
      else match parseNum f with
        | some q => DCell.num q
        | none => DCell.nan)
  else
    fields.map (fun f => if f.isEmpty then DCell.nan else DCell.str (String.mk f))

/-- Python `xs[1:-1]`, used for `.iloc[:, 1:-1]`: drop the first and the
last entry. -/
def ilocTrim {α : Type} (xs : List α) : List α := (xs.drop 1).dropLast

/-- Python `skiprows=[1]`: drop the raw line at index 1 when present. -/
def removeIdx1 {α : Type} (ls : List α) : List α :=
  match ls with
  | [] => []
  | [x] => [x]
  | x :: _ :: rest => x :: rest

/-- Model of `pd.read_table(io.StringIO(raw), sep='|',
skipinitialspace=True)` with the header taken from the first line
(`header=0`, which is also what `header='infer'` resolves to) and
optionally `skiprows=[1]`: split the raw text into lines, optionally drop
line index 1, skip blank lines, split every line on pipes and strip the
leading whitespace of each field.  A data row with more fields than the
first data row raises a tokenizing error; when the first data row is
wider than the header, pandas promotes the extra leading fields to the
row index, which the model renders by dropping them; short rows are
padded with empty fields (NaN).  Returns the header fields and the typed
column-major data. -/
def readLines (skipRow1 : Bool) (raw : List Char) : List (List Char) :=
  (if skipRow1 then removeIdx1 (splitOnChar '\n' raw) else splitOnChar '\n' raw).filter
    (fun l => ¬ (pyStrip l).isEmpty)

/-- Pipe-split one raw line into its fields, stripping leading whitespace
of each field (`sep='|'` with `skipinitialspace=True`). -/
def rowFieldsOf (l : List Char) : List (List Char) := (splitOnChar '|' l).map pyLStrip

/-- The implicit index-column width: how many extra leading fields the
first data row has relative to the header. -/
def readShift (header : List (List Char)) (rows : List (List (List Char))) : Nat :=
  (rows.headD header).length - header.length

def read_table_h0 (skipRow1 : Bool) (raw : List Char) :
    Except PdErr (List (List Char) × List (List DCell)) :=
  match readLines skipRow1 raw with
  | [] => Except.error PdErr.emptyData
  | h :: ds =>
    if (ds.map rowFieldsOf).any (fun r =>
        (rowFieldsOf h).length + readShift (rowFieldsOf h) (ds.map rowFieldsOf) < r.length)
    then Except.error PdErr.tooManyFields
    else Except.ok (rowFieldsOf h,
      (List.range (rowFieldsOf h).length).map (fun j =>
        typeColumn (((ds.map rowFieldsOf).map (fun r =>
          r.drop (readShift (rowFieldsOf h) (ds.map rowFieldsOf)))).map (fun r => r.getD j []))))

/-- Model of `pd.read_table(..., sep='|', header=None,
skipinitialspace=True)` (the manual fallback's data read): no header line,
column count taken from the first line, wider rows raise a tokenizing
error, shorter rows are padded with NaN. -/
def read_table_noheader (raw : List Char) : Except PdErr (Nat × List (List DCell)) :=
  match (splitOnChar '\n' raw).filter (fun l => ¬ (pyStrip l).isEmpty) with
  | [] => Except.error PdErr.emptyData
  | h :: ds =>
    if ((h :: ds).map rowFieldsOf).any (fun r => (rowFieldsOf h).length < r.length)
    then Except.error PdErr.tooManyFields
    else Except.ok ((rowFieldsOf h).length,
      (List.range (rowFieldsOf h).length).map (fun j =>
        typeColumn (((h :: ds).map rowFieldsOf).map (fun r => r.getD j []))))

/-- The separator-row detection of `markdown_to_df` (excel.py lines
290-296): at least 3 stripped lines, and the line at index 1 contains
`---` or `:--` while every one of its characters outside `|`, `:`, `-` is
non-alphanumeric (ASCII `isalnum` in the model). -/
def is_markdown_table (lines : List (List Char)) : Bool :=
  decide (3 ≤ lines.length) &&
    ((containsSeq ['-', '-', '-'] (lines.getD 1 []) ||
      containsSeq [':', '-', '-'] (lines.getD 1 [])) &&
     ((lines.getD 1 []).filter (fun c => ¬ (c = '|' ∨ c = ':' ∨ c = '-'))).all
       (fun c => ¬ c.isAlphanum))

/-- First parse attempt of the standard branch (excel.py lines 300-312):
`read_table` with `header=0, skiprows=[1]` followed by `.iloc[:, 1:-1]`.
The subsequent integer-header check of the Python code compares string
labels with an integer range and is therefore always false; it has no
error case in the model. -/
def mdDfAttempt1 (raw : List Char) : Except PdErr Df :=
  match read_table_h0 true raw with
  | Except.error e => Except.error e
  | Except.ok (headerF, cols) =>
    Except.ok ⟨ilocTrim (headerF.map String.mk), ilocTrim cols⟩

/-- Header cells of the manual fallback: line 0 with outer pipes stripped,
split on pipes, each cell stripped. -/
def manualHeaderRow (lines : List (List Char)) : List (List Char) :=
  (splitOnChar '|' (pyStripChar '|' (lines.headD []))).map pyStrip

/-- The manual fallback of the standard branch (excel.py lines 314-337):
header cells from line 0 after stripping outer pipes, data from lines 2
onward read without a header, `.iloc[:, 1:-1]`, then the header/data
width check; on mismatch a `ValueError` escapes to the outer handler.
A column assignment whose name list is shorter than the column count
raises pandas' length-mismatch `ValueError`. -/
def mdDfManual (lines : List (List Char)) : Except PdErr Df :=
  match read_table_noheader (List.intercalate ['\n'] (lines.drop 2)) with
  | Except.error e => Except.error e
  | Except.ok (_, cols0) =>
    if (¬ ((cols0.headD []).length = 0 ∨ (ilocTrim cols0).length = 0)) ∧
        (ilocTrim cols0).length ≤ (manualHeaderRow lines).length then
      if (((manualHeaderRow lines).drop 1).take (ilocTrim cols0).length).length =
          (ilocTrim cols0).length then
        Except.ok ⟨(((manualHeaderRow lines).drop 1).take (ilocTrim cols0).length).map
          String.mk, ilocTrim cols0⟩
      else Except.error (PdErr.valueError "Length mismatch in columns assignment")
    else Except.error (PdErr.valueError "表头行与数据列数不匹配")

/-- The non-standard branch (excel.py lines 339-344): plain `read_table`
with the header inferred from line 0, followed by `.iloc[:, 1:-1]`. -/
def mdDfPlain (raw : List Char) : Except PdErr Df :=
  match read_table_h0 false raw with
  | Except.error e => Except.error e
  | Except.ok (headerF, cols) =>
    Except.ok ⟨ilocTrim (headerF.map String.mk), ilocTrim cols⟩

/-- The per-cell numeric coercion loop of `markdown_to_df` (excel.py lines
346-352): compute the mask of cells convertible by
`pd.to_numeric(errors='coerce')`; when at least one cell converts,
convert exactly the masked cells and keep every other cell unchanged. -/
def coerceColumn (col : List DCell) : List DCell :=
  let mask := col.map (fun c =>
    match c with
    | DCell.num _ => true
    | DCell.nan => false
    | DCell.str s => (parseNum s.data).isSome)
  if mask.any id then
    col.map (fun c =>
      match c with
      | DCell.str s =>
        match parseNum s.data with
        | some q => DCell.num q
        | none => DCell.str s
      | other => other)
  else col

/-- The guarded body of `markdown_to_df` (the outer `try`, excel.py lines
284-354): minimum-size check, branch selection via the separator-row
detection, fallback from the first standard attempt to the manual path,
and the final per-column coercion loop.  Internal parse errors escape to
the caller of this body. -/
def mdDfBody (s : String) : Except PdErr Df :=
  if (splitOnChar '\n' (pyStrip s.data)).length < 2 then
    Except.error (PdErr.valueError "表格太小，缺少表头或数据")
  else
    match (if is_markdown_table (splitOnChar '\n' (pyStrip s.data)) then
        match mdDfAttempt1 s.data with
        | Except.ok df => Except.ok df
        | Except.error _ => mdDfManual (splitOnChar '\n' (pyStrip s.data))
      else mdDfPlain s.data) with
    | Except.error e => Except.error e
    | Except.ok df => Except.ok ⟨df.columns, df.colData.map coerceColumn⟩

/-- Builds the error DataFrame produced by the outer exception handler of
`markdown_to_df` (excel.py lines 356-359). -/
def error_df (msg : String) : Df :=
  ⟨["Error"], [[DCell.str ("无法解析Markdown表格: " ++ msg)]]⟩

/-- Message carried by a modelled pandas failure. -/
def pdErrMsg : PdErr → String
  | PdErr.emptyData => "No columns to parse from file"
  | PdErr.tooManyFields => "Error tokenizing data"
  | PdErr.valueError m => m

/-- The possible outcomes of calling a Python function: an uncaught
exception propagating to the caller, or a returned value. -/
inductive MdResult where
  | raised (msg : String)
  | returned (df : Df)
deriving DecidableEq

/-- Model of `markdown_to_df` (excel.py lines 270-359).  The input guard on
lines 281-282 raises `ValueError` BEFORE the `try` block, so that
exception propagates to the caller; every exception inside the `try` is
converted to the error DataFrame by the `except` handler on lines
356-359. -/
def markdown_to_df (markdown_table : String) : MdResult :=
  if markdown_table = "" ∨ ¬ containsSeq ['|'] markdown_table.data then
    MdResult.raised "输入文本不是有效的markdown表格格式"
  else
    match mdDfBody markdown_table with
    | Except.ok df => MdResult.returned df
    | Except.error e => MdResult.returned (error_df (pdErrMsg e))

example :
    markdown_to_df "|A|\n|---|\n|1|\n|x|" =
      MdResult.returned ⟨["A"], [[DCell.num 1, DCell.str "x"]]⟩ := by decide

example :
    to_markdown_table ⟨["Name"], [[Cell.str "Al"]]⟩ =
      "| Name   |\n|:-------|\n| Al     |" := by decide

example :
    markdown_to_df (to_markdown_table ⟨["Name"], [[Cell.str "Al"]]⟩) =
      MdResult.returned ⟨["Name   "], [[DCell.str "Al     "]]⟩ := by decide

example : markdown_to_df "" = MdResult.raised "输入文本不是有效的markdown表格格式" := by
  decide

-- ## Model of merge_tables (ocr.py lines 307-398)

/-- The LLM merge prompt of `merge_tables` (ocr.py lines 326-351), with the
instruction text abridged: every claim about `merge_tables` quantifies
over the completion capability, so the exact prompt wording is never
load-bearing. -/
def merge_prompt (existing_table new_table : String) : String :=
  "作为数据整合专家，请将以下两个markdown表格智能合并成一个表格。\n\n现有Excel表格:\n```\n"
    ++ existing_table ++ "\n```\n\nOCR识别出的新表格:\n```\n" ++ new_table
    ++ "\n```\n\n合并要求: 保留现有Excel表格的所有数据和列结构，将OCR表格的数据按照合适的方式添加到现有表格中，确保最终表格的markdown格式正确，包括表头分隔行。\n请直接返回完整的合并后markdown表格，不需要解释合并过程或决策理由。"

/-- Fuel-driven scanner for `re.findall(r"```(?:markdown)?(.*?)```", s,
re.DOTALL)` (ocr.py lines 366-368): finds non-overlapping fenced blocks,
consuming an optional literal `markdown` tag right after the opening
fence; the lazy group captures up to the nearest closing fence.  Since
`markdown` contains no backtick, regex backtracking can never produce a
different match than this scan. -/
def fenceBlocksAux : Nat → List Char → List (List Char)
  | 0, _ => []
  | fuel + 1, l =>
    match findSeq "```".data l with
    | none => []
    | some (_, rest) =>
      let rest2 := if startsWithSeq "markdown".data rest then rest.drop 8 else rest
      match findSeq "```".data rest2 with
      | none => []
      | some (block, rest3) => block :: fenceBlocksAux fuel rest3

/-- All fenced blocks of `l`, in order. -/
def fenceBlocks (l : List Char) : List (List Char) := fenceBlocksAux l.length l

/-- Python `max(xs, key=len)`: the first entry of maximal length (only
used on non-empty lists). -/
def maxByLen (xs : List (List Char)) : List Char :=
  xs.foldl (fun best x => if best.length < x.length then x else best) []

/-- The code-fence post-processing of `merge_tables` (ocr.py lines
363-371): when the text contains a fence, extract all fenced blocks and
keep the longest one, stripped; otherwise keep the text. -/
def merge_postprocess (merged : List Char) : List Char :=
  if containsSeq "```".data merged then
    match fenceBlocks merged with
    | [] => merged
    | b :: bs => pyStrip (maxByLen (b :: bs))
  else merged

/-- The structural validation of `merge_tables` (ocr.py lines 373-383):
at least 2 lines after stripping, a pipe in line 0, and `---` plus a pipe
in line 1. -/
def merge_validBool (m2 : List Char) : Bool :=
  decide (2 ≤ (splitOnChar '\n' (pyStrip m2)).length) &&
  ((splitOnChar '\n' (pyStrip m2)).headD []).contains '|' &&
  (containsSeq "---".data ((splitOnChar '\n' (pyStrip m2)).getD 1 []) &&
   ((splitOnChar '\n' (pyStrip m2)).getD 1 []).contains '|')

/-- Model of `merge_tables` (ocr.py lines 307-398).  The completion
capability is a parameter: `complete prompt = none` models an exception
inside the LLM call (caught by the handler on lines 392-394) and
`some text` models the returned `response.content`.  Logging calls are
ignored. -/
def merge_tables (complete : String → Option String)
    (existing_table new_table : String) : String :=
  if existing_table = "" ∨ (pyStrip existing_table.data).isEmpty then new_table
  else if new_table = "" ∨ (pyStrip new_table.data).isEmpty then existing_table
  else
    match complete (merge_prompt existing_table new_table) with
    | none => existing_table
    | some response =>
      if ¬ containsSeq ['|'] (pyStrip response.data) = true ∨
          (pyStrip (pyStrip response.data)).isEmpty = true then existing_table
      else
        if merge_validBool (merge_postprocess (pyStrip response.data)) = true then
          String.mk (merge_postprocess (pyStrip response.data))
        else existing_table

-- ## Model of extract_form_content / update_draft_form (update.py)

/-- Model of the `<form>(.*?)</form>` regex search of
`extract_form_content` (update.py lines 10-13): the leftmost opening tag
that has a closing tag after it, with the lazy group ending at the
nearest closing tag. -/
def formTagMatch (l : List Char) : Option (List Char) :=
  match findSeq "<form>".data l with
  | none => none
  | some (_, rest) =>
    match findSeq "</form>".data rest with
    | none => none
    | some (inner, _) => some inner

/-- The scan for the end of an inline table (update.py lines 30-34): the
first index `i` in `range(table_start + 1, len(lines))` whose line has no
pipe and with `i > table_start + 2`; defaults to the line count. -/
def tableEndIdx (lines : List (List Char)) (ts : Nat) : Nat :=
  match (List.range lines.length).filter
      (fun i => decide (ts + 1 ≤ i ∧ (lines.getD i []).contains '|' = false ∧ ts + 2 < i)) with
  | [] => lines.length
  | e :: _ => e

/-- Model of `extract_form_content` (update.py lines 4-45): prefer the
`<form>` block (stripped); otherwise, when the message contains both a
pipe and `---`, extract the inline table from the first pipe line to the
table end, subject to the final pipe / length-over-10 check.  The
internal `except` handler returns `""`; the model's operations are total.
Print statements are ignored. -/
def extract_form_content (message : String) : String :=
  match formTagMatch message.data with
  | some inner => String.mk (pyStrip inner)
  | none =>
    if containsSeq ['|'] message.data ∧ containsSeq "---".data message.data then
      let lines := splitOnChar '\n' (pyStrip message.data)
      match (List.range lines.length).filter (fun i => (lines.getD i []).contains '|') with
      | [] => ""
      | ts :: _ =>
        let te := tableEndIdx lines ts
        let table_content := List.intercalate ['\n'] ((lines.take te).drop ts)
        if table_content.contains '|' ∧ 10 < table_content.length then
          String.mk table_content
        else ""
    else ""

/-- A form field (`app/models.py` `FormField`), restricted to the
components the claims touch. -/
structure FormField where
  label : String
  type : String
  value : String
deriving DecidableEq

/-- A draft form: its ordered field list. -/
structure DraftForm where
  fields : List FormField
deriving DecidableEq

/-- Index of the first field of type `markdown` (update.py lines 73-77). -/
def findMarkdownFieldIdx (fields : List FormField) : Option Nat :=
  fields.findIdx? (fun f => f.type == "markdown")

/-- Pipe-line count of a table text (update.py lines 87-88):
`sum(1 for line in content.strip().split('\n') if '|' in line)`. -/
def countPipeLines (content : String) : Nat :=
  ((splitOnChar '\n' (pyStrip content.data)).filter (fun l => l.contains '|')).length

/-- Model of `update_draft_form` (update.py lines 57-106): extract the
table content, return the form unchanged when the content is missing or
pipe-free or when the form has no markdown field, otherwise overwrite the
markdown field's value.  In the source every statement before the field
assignment on line 97 is read-only and nothing after it can raise, so the
`except` handler (which returns the input form) also never leaves a
partially modified form; the model's operations are total. -/
def update_draft_form (draft_form : DraftForm) (message : String) : DraftForm :=
  if extract_form_content message = "" ∨
      (extract_form_content message).data.contains '|' = false then draft_form
  else
    match findMarkdownFieldIdx draft_form.fields with
    | none => draft_form
    | some i =>
      match draft_form.fields[i]? with
      | none => draft_form
      | some f => ⟨draft_form.fields.set i { f with value := extract_form_content message }⟩

/-- The row-count warning printed by `update_draft_form` (update.py lines
84-94), surfaced as a Boolean: computed only when the original markdown
content is non-empty (Python truthiness), and true exactly when the new
pipe-line count is strictly below the original one. -/
def update_draft_form_warning (draft_form : DraftForm) (message : String) : Bool :=
  if extract_form_content message = "" ∨
      (extract_form_content message).data.contains '|' = false then false
  else
    match findMarkdownFieldIdx draft_form.fields with
    | none => false
    | some i =>
      match draft_form.fields[i]? with
      | none => false
      | some f =>
        if f.value ≠ "" then
          decide (countPipeLines (extract_form_content message) < countPipeLines f.value)
        else false

-- ## Model of get_prefilled_fields_status (status.py lines 4-25)

/-- Worker for `get_prefilled_fields_status`: walks the previous fields
with their indices, looks up the index-aligned current field, and sorts
the field into the still-empty or prefilled list.  Python would raise
`IndexError` on a missing current index; the model returns `none`. -/
def statusAux (cur : List FormField) :
    Nat → List FormField → Option (List FormField × List FormField)
  | _, [] => some ([], [])
  | i, f :: rest =>
    if f.value = "" ∧ f.type = "text" then
      match cur[i]? with
      | none => none
      | some cf =>
        match statusAux cur (i + 1) rest with
        | none => none
        | some (p, e) =>
          if f.value = cf.value then some (p, f :: e) else some (cf :: p, e)
    else statusAux cur (i + 1) rest

/-- Model of `get_prefilled_fields_status` (status.py lines 4-25): the
pair (prefilled fields, empty fields). -/
def get_prefilled_fields_status (previous_form current_form : DraftForm) :
    Option (List FormField × List FormField) :=
  statusAux current_form.fields 0 previous_form.fields

-- ## Model of extract_excel_sheet_content (excel_helpers.py lines 66-113)

/-- Accumulator of the sheet-splitting loop: stored sheets (an
insertion-ordered dict), the current sheet name, and the collected
lines of the current section. -/
structure SheetAcc where
  sheets : List (String × String)
  current : Option String
  buf : List (List Char)

/-- Insertion-ordered Python-dict update: overwrite the value in place
when the key exists, else append the pair. -/
def dictInsert (d : List (String × String)) (k v : String) : List (String × String) :=
  if d.any (fun p => p.1 == k) then
    d.map (fun p => if p.1 == k then (k, v) else p)
  else d ++ [(k, v)]

/-- Store the finished current sheet when its joined content is non-blank
(empty sections are dropped; excel_helpers.py lines 88-91). -/
def saveCurrent (st : SheetAcc) : List (String × String) :=
  match st.current with
  | none => st.sheets
  | some name =>
    let content := List.intercalate ['\n'] st.buf
    if ¬ (pyStrip content).isEmpty then dictInsert st.sheets name (String.mk content)
    else st.sheets

/-- One line of the sheet-splitting loop (excel_helpers.py lines 85-99):
a heading line stores the finished sheet and opens a new one — an
unnamed heading gets the default name `Sheet{len(sheets) + 1}` computed
AFTER the previous sheet was stored; any other line is buffered when a
sheet is open. -/
def sheetStep (st : SheetAcc) (line : List Char) : SheetAcc :=
  if startsWithSeq "## Sheet:".data line then
    ⟨saveCurrent st,
     some (if (pyStrip (removeSeq "## Sheet:".data line)).isEmpty then
         "Sheet" ++ toString ((saveCurrent st).length + 1)
       else String.mk (pyStrip (removeSeq "## Sheet:".data line))),
     []⟩
  else
    match st.current with
    | some _ => { st with buf := st.buf ++ [line] }
    | none => st

/-- Model of `extract_excel_sheet_content` (excel_helpers.py lines
66-113): empty input gives no sheets; heading-free input with a pipe
becomes a single default sheet; otherwise the line loop splits the
document at `## Sheet:` headings, the last open sheet is stored when its
buffer is non-empty and non-blank, and a final fallback again wraps
pipe-containing input as `Sheet1` when no sheet was found. -/
def extract_excel_sheet_content (markdown_content : String) : List (String × String) :=
  if markdown_content = "" then []
  else if ¬ containsSeq "## Sheet:".data markdown_content.data ∧
      containsSeq ['|'] markdown_content.data then
    [("Sheet1", String.mk (pyStrip markdown_content.data))]
  else
    let final := (splitOnChar '\n' markdown_content.data).foldl sheetStep ⟨[], none, []⟩
    let sheets :=
      match final.current with
      | some name =>
        if ¬ final.buf.isEmpty then
          let content := List.intercalate ['\n'] final.buf
          if ¬ (pyStrip content).isEmpty then dictInsert final.sheets name (String.mk content)
          else final.sheets
        else final.sheets
      | none => final.sheets
    if sheets.isEmpty ∧ containsSeq ['|'] markdown_content.data then
      [("Sheet1", String.mk (pyStrip markdown_content.data))]
    else sheets

example :
    extract_excel_sheet_content "## Sheet: A\n|x|\n## Sheet:\n|y|" =
      [("A", "|x|"), ("Sheet2", "|y|")] := by decide

example :
    extract_excel_sheet_content "## Sheet:\n|a|" = [("Sheet1", "|a|")] := by decide

example :
    merge_tables (fun _ => some "not a table") "|a|\n|---|\n|1|" "|b|\n|---|\n|2|" =
      "|a|\n|---|\n|1|" := by decide

example :
    extract_form_content "<form>\n| A | B |\n|---|---|\n| 1 | 2 |\n</form>" =
      "| A | B |\n|---|---|\n| 1 | 2 |" := by decide

-- ## Claim C2 (lenient parser never raises)

/-- Claim C2, counterexample: on the empty string, `markdown_to_df` does
NOT return a value — the input guard on excel.py lines 281-282 raises
`ValueError` before the `try` block, so the exception propagates to the
caller, contradicting the claim that the parse never raises for every
input including the empty string. -/
theorem C2_counterexample :
    (¬ ∃ df, markdown_to_df "" = MdResult.returned df) ∧
    markdown_to_df "" = MdResult.raised "输入文本不是有效的markdown表格格式" := by
  constructor
  · rintro ⟨df, hdf⟩
    have h : markdown_to_df "" = MdResult.raised "输入文本不是有效的markdown表格格式" := by
      decide
    rw [h] at hdf
    exact MdResult.noConfusion hdf
  · decide

/-- Claim C2 (amended): for every non-empty input containing a pipe
character, `markdown_to_df` returns a DataFrame (possibly the error
DataFrame) and never lets an exception propagate; only the empty or
pipe-free inputs rejected by the pre-`try` guard raise. -/
theorem C2_amended (s : String) (h1 : s ≠ "")
    (h2 : containsSeq ['|'] s.data = true) :
    ∃ df, markdown_to_df s = MdResult.returned df := by
  unfold markdown_to_df
  rw [if_neg (by
    rintro (h | h)
    · exact h1 h
    · rw [h2] at h
      simp at h)]
  cases mdDfBody s with
  | ok df => exact ⟨df, rfl⟩
  | error e => exact ⟨error_df (pdErrMsg e), rfl⟩

/-- Claim C2, witness for the amended theorem at the single-pipe input. -/
theorem C2_witness : ∃ df, markdown_to_df "|" = MdResult.returned df :=
  C2_amended "|" (by decide) (by decide)

-- ## Claim C3 (column-wise all-or-nothing numeric coercion)

/-- Is the decoded cell numeric? -/
def dcellIsNum : DCell → Bool
  | DCell.num _ => true
  | _ => false

/-- Is the decoded cell a string? -/
def dcellIsStr : DCell → Bool
  | DCell.str _ => true
  | _ => false

/-- Claim C3, counterexample: parsing `|A|\n|---|\n|1|\n|x|` produces the
single column `A` holding the numeric cell `1` AND the string cell `x` —
the coercion of excel.py lines 346-352 is per cell, so a column can mix
numeric and string cells, contradicting the all-or-nothing claim. -/
theorem C3_counterexample :
    markdown_to_df "|A|\n|---|\n|1|\n|x|" =
      MdResult.returned ⟨["A"], [[DCell.num 1, DCell.str "x"]]⟩ ∧
    (∃ c ∈ [DCell.num (1 : ℚ), DCell.str "x"], dcellIsNum c = true) ∧
    (∃ c ∈ [DCell.num (1 : ℚ), DCell.str "x"], dcellIsStr c = true) := by
  refine ⟨by decide, ⟨DCell.num 1, by decide⟩, ⟨DCell.str "x", by decide⟩⟩


/-- The cell transformation applied by the coercion loop's conversion
step. -/
def coerceCell (c : DCell) : DCell :=
  match c with
  | DCell.str s =>
    match parseNum s.data with
    | some q => DCell.num q
    | none => DCell.str s
  | other => other

/-- The mask predicate of the coercion loop
(`pd.to_numeric(errors='coerce').notnull()`). -/
def coerceMask (c : DCell) : Bool :=
  match c with
  | DCell.num _ => true
  | DCell.nan => false
  | DCell.str s => (parseNum s.data).isSome

/-- The per-cell outcome of read-time typing followed by the coercion
loop. -/
def perCellOutcome (f : List Char) : DCell :=
  if f.isEmpty then DCell.nan
  else match parseNum f with
    | some q => DCell.num q
    | none => DCell.str (String.mk f)

theorem coerceColumn_eq (col : List DCell) :
    coerceColumn col = if (col.map coerceMask).any id then col.map coerceCell else col := by
  unfold coerceColumn coerceMask coerceCell
  rfl

theorem coerceCell_numeric_branch (f : List Char)
    (h : (f.isEmpty || (parseNum f).isSome) = true) :
    coerceCell (if f.isEmpty then DCell.nan
      else match parseNum f with
        | some q => DCell.num q
        | none => DCell.nan) = perCellOutcome f := by
  by_cases hemp : f.isEmpty
  · simp [hemp, coerceCell, perCellOutcome]
  · rw [Bool.or_eq_true] at h
    rcases h with h | h
    · exact absurd h hemp
    · rcases Option.isSome_iff_exists.mp h with ⟨q, hq⟩
      simp [hemp, hq, coerceCell, perCellOutcome]

theorem numeric_branch_cell (f : List Char)
    (h : (f.isEmpty || (parseNum f).isSome) = true) :
    (if f.isEmpty then DCell.nan
      else match parseNum f with
        | some q => DCell.num q
        | none => DCell.nan) = perCellOutcome f := by
  by_cases hemp : f.isEmpty
  · simp [hemp, perCellOutcome]
  · rw [Bool.or_eq_true] at h
    rcases h with h | h
    · exact absurd h hemp
    · rcases Option.isSome_iff_exists.mp h with ⟨q, hq⟩
      simp [hemp, hq, perCellOutcome]

theorem coerceCell_string_branch (f : List Char) :
    coerceCell (if f.isEmpty then DCell.nan else DCell.str (String.mk f)) =
      perCellOutcome f := by
  by_cases hemp : f.isEmpty
  · simp [hemp, coerceCell, perCellOutcome]
  · rw [if_neg hemp]
    unfold perCellOutcome
    rw [if_neg hemp]
    rfl

theorem coerceCell_fix (c : DCell) (h : dcellIsStr c = false) : coerceCell c = c := by
  cases c with
  | nan => rfl
  | num q => rfl
  | str s => simp [dcellIsStr] at h

/-- Composition of read-time typing with the coercion loop, described per
cell. -/
theorem coerceColumn_typeColumn (fields : List (List Char)) :
    coerceColumn (typeColumn fields) = fields.map perCellOutcome := by
  by_cases hall : fields.all (fun f => f.isEmpty || (parseNum f).isSome) = true
  · have hmap : typeColumn fields = fields.map perCellOutcome := by
      unfold typeColumn
      rw [if_pos hall]
      exact List.map_congr_left fun f hf =>
        numeric_branch_cell f (List.all_eq_true.mp hall f hf)
    rw [hmap, coerceColumn_eq]
    by_cases hany : ((fields.map perCellOutcome).map coerceMask).any id = true
    · rw [if_pos hany, List.map_map]
      refine List.map_congr_left fun f hf => ?_
      show coerceCell (perCellOutcome f) = perCellOutcome f
      have h1 := numeric_branch_cell f (List.all_eq_true.mp hall f hf)
      have h2 := coerceCell_numeric_branch f (List.all_eq_true.mp hall f hf)
      rw [← h1]
      rw [← h1] at h2
      exact h2
    · rw [if_neg hany]
  · have hmap : typeColumn fields =
        fields.map (fun f => if f.isEmpty then DCell.nan else DCell.str (String.mk f)) := by
      unfold typeColumn
      rw [if_neg hall]
    rw [hmap, coerceColumn_eq]
    by_cases hany : (((fields.map (fun f =>
        if f.isEmpty then DCell.nan else DCell.str (String.mk f))).map coerceMask).any id) = true
    · rw [if_pos hany, List.map_map]
      exact List.map_congr_left fun f _ => coerceCell_string_branch f
    · rw [if_neg hany]
      rw [List.any_eq_true] at hany
      push_neg at hany
      refine List.map_congr_left fun f hf => ?_
      by_cases hemp : f.isEmpty
      · simp [hemp, perCellOutcome]
      · have hmem : coerceMask (if f.isEmpty then DCell.nan else DCell.str (String.mk f)) ∈
            ((fields.map (fun f =>
              if f.isEmpty then DCell.nan else DCell.str (String.mk f))).map coerceMask) := by
          rw [List.map_map]
          exact List.mem_map.mpr ⟨f, hf, rfl⟩
        have hmf := hany _ hmem
        simp only [id_eq] at hmf
        rw [if_neg hemp] at hmf ⊢
        have hmf2 : (parseNum f).isSome ≠ true := hmf
        unfold perCellOutcome
        rw [if_neg hemp]
        rcases hq : parseNum f with _ | q
        · rfl
        · rw [hq] at hmf2
          simp at hmf2

-- ## Further strip lemmas (idempotence) and substring monotonicity

theorem dropWhile_no_head {p : Char → Bool} :
    ∀ {l c : List Char} {x : Char}, l.dropWhile p = x :: c → p x = false := by
  intro l
  induction l with
  | nil => intro c x h; simp [List.dropWhile] at h
  | cons y ys ih =>
    intro c x h
    by_cases hy : p y = true
    · rw [List.dropWhile_cons, if_pos hy] at h
      exact ih h
    · rw [List.dropWhile_cons, if_neg hy] at h
      injection h with h1 _
      subst h1
      exact Bool.eq_false_iff.mpr hy

theorem dropWhile_suffix_exists {p : Char → Bool} (l : List Char) :
    ∃ pre, pre ++ l.dropWhile p = l := by
  induction l with
  | nil => exact ⟨[], rfl⟩
  | cons x xs ih =>
    by_cases hx : p x = true
    · rcases ih with ⟨pre, hpre⟩
      exact ⟨x :: pre, by rw [List.dropWhile_cons, if_pos hx, List.cons_append, hpre]⟩
    · exact ⟨[], by rw [List.dropWhile_cons, if_neg hx]; rfl⟩

theorem pyStrip_idem (l : List Char) : pyStrip (pyStrip l) = pyStrip l := by
  have hm : pyStrip l = ((l.dropWhile isPySpace).reverse.dropWhile isPySpace).reverse := rfl
  have hstep1 : (pyStrip l).dropWhile isPySpace = pyStrip l := by
    rcases hml : pyStrip l with _ | ⟨c, cs⟩
    · rfl
    · have h1 : ((l.dropWhile isPySpace).reverse.dropWhile isPySpace).reverse = c :: cs := by
        rw [← hm, hml]
      have h2 : (l.dropWhile isPySpace).reverse.dropWhile isPySpace = cs.reverse ++ [c] := by
        rw [← List.reverse_reverse ((l.dropWhile isPySpace).reverse.dropWhile isPySpace), h1]
        simp
      rcases dropWhile_suffix_exists (p := isPySpace) (l.dropWhile isPySpace).reverse with
        ⟨pre, hpre⟩
      rw [h2] at hpre
      have hA2 : l.dropWhile isPySpace = c :: (cs ++ pre.reverse) := by
        have h3 := congrArg List.reverse hpre
        simpa [List.reverse_append] using h3.symm
      have hc : isPySpace c = false := dropWhile_no_head hA2
      rw [List.dropWhile_cons, if_neg (by simp [hc])]
  have hrev : (pyStrip l).reverse = (l.dropWhile isPySpace).reverse.dropWhile isPySpace := by
    rw [hm]; exact List.reverse_reverse _
  rw [show pyStrip (pyStrip l) =
      (((pyStrip l).dropWhile isPySpace).reverse.dropWhile isPySpace).reverse from rfl,
    hstep1, hrev, dropWhile_idem, ← hrev, List.reverse_reverse]

theorem parseNum_pyStrip (l : List Char) : parseNum (pyStrip l) = parseNum l :=
  parseNum_congr (pyStrip_idem l)

theorem startsWithSeq_of_append {p1 p2 : List Char} :
    ∀ {l : List Char}, startsWithSeq (p1 ++ p2) l = true → startsWithSeq p1 l = true := by
  induction p1 with
  | nil => intro l _; rfl
  | cons a p1 ih =>
    intro l h
    cases l with
    | nil => simp [startsWithSeq] at h
    | cons x xs =>
      rw [List.cons_append] at h
      unfold startsWithSeq at h ⊢
      rw [Bool.and_eq_true] at h ⊢
      exact ⟨h.1, ih h.2⟩

theorem containsSeq_of_append {p1 p2 : List Char} :
    ∀ {l : List Char}, containsSeq (p1 ++ p2) l = true → containsSeq p1 l = true := by
  intro l
  induction l with
  | nil =>
    intro h
    unfold containsSeq at h ⊢
    exact startsWithSeq_of_append h
  | cons x xs ih =>
    intro h
    unfold containsSeq at h ⊢
    rw [Bool.or_eq_true] at h ⊢
    rcases h with h | h
    · exact Or.inl (startsWithSeq_of_append h)
    · exact Or.inr (ih h)

theorem contains_ne_nil {l : List Char} {c : Char} (h : l.contains c = true) : l ≠ [] := by
  intro he
  subst he
  simp at h

/-- Claim C3 (amended): the numeric coercion is per cell, not column-wise
all-or-nothing — after read-time typing and the coercion loop, every
field that parses as a number is stored numerically, every empty field
becomes NaN, and every other field keeps its string; a column may
therefore mix numeric and string cells. -/
theorem C3_amended (fields : List (List Char)) :
    coerceColumn (typeColumn fields) = fields.map perCellOutcome :=
  coerceColumn_typeColumn fields

-- ## Claim C6 (merge empty-input fallback)

/-- Claim C6: when either merge input is blank, the merge returns the
other input unchanged, and it does so for EVERY completion capability —
i.e. the result does not depend on the completion, which is therefore
never consulted. -/
theorem C6_merge_empty_fallback (c1 c2 : String → Option String)
    (existing_table new_table : String)
    (h : (pyStrip existing_table.data).isEmpty = true ∨
         (pyStrip new_table.data).isEmpty = true) :
    merge_tables c1 existing_table new_table = merge_tables c2 existing_table new_table ∧
    merge_tables c1 existing_table new_table =
      (if (pyStrip existing_table.data).isEmpty then new_table else existing_table) := by
  by_cases hE : (pyStrip existing_table.data).isEmpty = true
  · unfold merge_tables
    rw [if_pos (Or.inr hE), if_pos (Or.inr hE), if_pos hE]
    exact ⟨rfl, rfl⟩
  · have hN : (pyStrip new_table.data).isEmpty = true := by
      rcases h with h | h
      · exact absurd h hE
      · exact h
    have hguard : ¬ (existing_table = "" ∨ (pyStrip existing_table.data).isEmpty = true) := by
      rintro (h1 | h1)
      · apply hE
        rw [h1]
        rfl
      · exact hE h1
    unfold merge_tables
    rw [if_neg hguard, if_neg hguard, if_pos (Or.inr hN), if_pos (Or.inr hN),
      if_neg (by simpa using hE)]
    exact ⟨rfl, rfl⟩

/-- Claim C6, witness: a concrete 3-row target with an empty incoming
table, under two different completion capabilities. -/
theorem C6_witness :
    merge_tables (fun _ => some "X") "|a|\n|---|\n|1|\n|2|\n|3|" "" =
      merge_tables (fun _ => none) "|a|\n|---|\n|1|\n|2|\n|3|" "" ∧
    merge_tables (fun _ => some "X") "|a|\n|---|\n|1|\n|2|\n|3|" "" =
      (if (pyStrip ("|a|\n|---|\n|1|\n|2|\n|3|" : String).data).isEmpty then ""
       else "|a|\n|---|\n|1|\n|2|\n|3|") :=
  C6_merge_empty_fallback (fun _ => some "X") (fun _ => none)
    "|a|\n|---|\n|1|\n|2|\n|3|" "" (Or.inr (by decide))

-- ## Claim C5 (merge validation fallback)

/-- The spec's merge validation, written from the claim's words: at least
two non-empty lines, a first (non-empty) line containing a pipe, and a
second (non-empty) line containing both a pipe and a run of at least two
hyphens. -/
def specMergeValid (s : List Char) : Prop :=
  2 ≤ ((splitOnChar '\n' s).filter (fun l => !l.isEmpty)).length ∧
  (((splitOnChar '\n' s).filter (fun l => !l.isEmpty)).headD []).contains '|' = true ∧
  (((splitOnChar '\n' s).filter (fun l => !l.isEmpty)).getD 1 []).contains '|' = true ∧
  containsSeq ['-', '-'] (((splitOnChar '\n' s).filter (fun l => !l.isEmpty)).getD 1 []) = true

theorem specMergeValid_of_code {m : List Char}
    (hlen : 2 ≤ (splitOnChar '\n' m).length)
    (h0 : ((splitOnChar '\n' m).headD []).contains '|' = true)
    (h1p : ((splitOnChar '\n' m).getD 1 []).contains '|' = true)
    (h1d : containsSeq "---".data ((splitOnChar '\n' m).getD 1 []) = true) :
    specMergeValid m := by
  rcases hsp : splitOnChar '\n' m with _ | ⟨a, rest⟩
  · rw [hsp] at hlen; simp at hlen
  · cases rest with
    | nil => rw [hsp] at hlen; simp at hlen
    | cons b rest2 =>
      rw [hsp] at h0 h1p h1d
      simp only [List.headD_cons, List.getD_cons_succ, List.getD_cons_zero] at h0 h1p h1d
      have ha : a ≠ [] := contains_ne_nil h0
      have hb : b ≠ [] := contains_ne_nil h1p
      have hfilter : (splitOnChar '\n' m).filter (fun l => !l.isEmpty) =
          a :: b :: rest2.filter (fun l => !l.isEmpty) := by
        rw [hsp, List.filter_cons_of_pos (by simpa using ha),
          List.filter_cons_of_pos (by simpa using hb)]
      unfold specMergeValid
      rw [hfilter]
      refine ⟨by simp, by simpa using h0, by simpa using h1p, ?_⟩
      simp only [List.getD_cons_succ, List.getD_cons_zero]
      exact @containsSeq_of_append ['-', '-'] ['-'] _ h1d

theorem merge_postprocess_fix (x : List Char) :
    pyStrip (merge_postprocess (pyStrip x)) = merge_postprocess (pyStrip x) := by
  unfold merge_postprocess
  by_cases hbt : containsSeq "```".data (pyStrip x) = true
  · rw [if_pos hbt]
    rcases hfb : fenceBlocks (pyStrip x) with _ | ⟨b, bs⟩
    · exact pyStrip_idem x
    · exact pyStrip_idem _
  · rw [if_neg hbt]
    exact pyStrip_idem x

theorem merge_valid_step (existing_table : String) (m2 : List Char)
    (hfix : pyStrip m2 = m2) :
    (if merge_validBool m2 = true then String.mk m2 else existing_table) = existing_table ∨
      specMergeValid
        (if merge_validBool m2 = true then String.mk m2 else existing_table).data := by
  by_cases hv : merge_validBool m2 = true
  · right
    rw [if_pos hv]
    show specMergeValid m2
    unfold merge_validBool at hv
    rw [hfix] at hv
    rw [Bool.and_eq_true, Bool.and_eq_true, Bool.and_eq_true] at hv
    obtain ⟨⟨hlen, h0⟩, hd, h1⟩ := hv
    exact specMergeValid_of_code (of_decide_eq_true hlen) h0 h1 hd
  · left
    rw [if_neg hv]

/-- Claim C5: for non-blank inputs the merge either returns the target
unchanged or returns text that passes the spec's structural validation —
unvalidated completion output is never adopted, and every validation
failure (including the pipe-free guard) falls back to the target. -/
theorem C5_merge_validation (complete : String → Option String)
    (existing_table new_table : String)
    (hE : (pyStrip existing_table.data).isEmpty = false)
    (hN : (pyStrip new_table.data).isEmpty = false) :
    merge_tables complete existing_table new_table = existing_table ∨
      specMergeValid (merge_tables complete existing_table new_table).data := by
  have hgE : ¬ (existing_table = "" ∨ (pyStrip existing_table.data).isEmpty = true) := by
    rintro (h | h)
    · rw [h] at hE
      rw [show (pyStrip ("" : String).data).isEmpty = true from by decide] at hE
      simp at hE
    · rw [h] at hE
      simp at hE
  have hgN : ¬ (new_table = "" ∨ (pyStrip new_table.data).isEmpty = true) := by
    rintro (h | h)
    · rw [h] at hN
      rw [show (pyStrip ("" : String).data).isEmpty = true from by decide] at hN
      simp at hN
    · rw [h] at hN
      simp at hN
  unfold merge_tables
  rw [if_neg hgE, if_neg hgN]
  split
  next => exact Or.inl rfl
  next response heq =>
    by_cases hg : (¬ containsSeq ['|'] (pyStrip response.data) = true ∨
        (pyStrip (pyStrip response.data)).isEmpty = true)
    · rw [if_pos hg]
      exact Or.inl rfl
    · rw [if_neg hg]
      exact merge_valid_step existing_table _ (merge_postprocess_fix response.data)

/-- Claim C5, witness: a completion returning the literal `not a table`
leaves a concrete 3-row target unchanged. -/
theorem C5_witness :
    (merge_tables (fun _ => some "not a table") "|a|\n|---|\n|1|\n|2|\n|3|" "|b|\n|---|\n|9|" =
        "|a|\n|---|\n|1|\n|2|\n|3|" ∨
      specMergeValid (merge_tables (fun _ => some "not a table")
        "|a|\n|---|\n|1|\n|2|\n|3|" "|b|\n|---|\n|9|").data) ∧
    merge_tables (fun _ => some "not a table") "|a|\n|---|\n|1|\n|2|\n|3|" "|b|\n|---|\n|9|" =
      "|a|\n|---|\n|1|\n|2|\n|3|" :=
  ⟨C5_merge_validation (fun _ => some "not a table") "|a|\n|---|\n|1|\n|2|\n|3|"
      "|b|\n|---|\n|9|" (by decide) (by decide), by decide⟩

-- ## Claim C7 (field-status diff)

/-- The prefilled list according to the claim's words: every index-aligned
position whose previous value is empty and whose current value is
non-empty, regardless of the field's type. -/
def specPrefilled (prev cur : List FormField) : List FormField :=
  ((List.range prev.length).filter (fun i =>
    decide ((prev.getD i ⟨"", "", ""⟩).value = "" ∧
      (cur.getD i ⟨"", "", ""⟩).value ≠ ""))).map (fun i => cur.getD i ⟨"", "", ""⟩)

/-- The prefilled list the code actually computes: only previous fields of
type `text` (status.py line 17) participate in the classification. -/
def codePrefilled (prev cur : List FormField) : List FormField :=
  ((List.range prev.length).filter (fun i =>
    decide ((prev.getD i ⟨"", "", ""⟩).value = "" ∧
      (prev.getD i ⟨"", "", ""⟩).type = "text" ∧
      (cur.getD i ⟨"", "", ""⟩).value ≠ ""))).map (fun i => cur.getD i ⟨"", "", ""⟩)

/-- The still-empty list the code actually computes (the previous field
object is collected; only `text` fields participate). -/
def codeStillEmpty (prev cur : List FormField) : List FormField :=
  ((List.range prev.length).filter (fun i =>
    decide ((prev.getD i ⟨"", "", ""⟩).value = "" ∧
      (prev.getD i ⟨"", "", ""⟩).type = "text" ∧
      (cur.getD i ⟨"", "", ""⟩).value = ""))).map (fun i => prev.getD i ⟨"", "", ""⟩)

/-- Claim C7, counterexample: for a single non-text field (type
`markdown`) with empty previous value and non-empty current value the
code classifies nothing — status.py line 17 restricts the diff to fields
with `type == "text"` — while the claim's positional rule counts the
field as prefilled. -/
theorem C7_counterexample :
    get_prefilled_fields_status ⟨[⟨"f", "markdown", ""⟩]⟩ ⟨[⟨"f", "markdown", "x"⟩]⟩ =
      some ([], []) ∧
    specPrefilled [⟨"f", "markdown", ""⟩] [⟨"f", "markdown", "x"⟩] =
      [⟨"f", "markdown", "x"⟩] := by decide

theorem range_filter_map_cons {α : Type} (n : Nat) (p : Nat → Bool) (g : Nat → α) :
    ((List.range (n + 1)).filter p).map g =
      (if p 0 = true then [g 0] else []) ++
      ((List.range n).filter (fun k => p (k + 1))).map (fun k => g (k + 1)) := by
  rw [List.range_succ_eq_map, List.filter_cons, List.filter_map]
  by_cases h : p 0 = true
  · rw [if_pos h, if_pos h, List.map_cons, List.map_map]
    rfl
  · rw [if_neg h, if_neg h, List.map_map]
    rfl

theorem statusAux_spec (cur : List FormField) :
    ∀ (rest : List FormField) (i : Nat), i + rest.length ≤ cur.length →
      statusAux cur i rest = some (
        ((List.range rest.length).filter (fun k =>
          decide ((rest.getD k ⟨"", "", ""⟩).value = "" ∧
            (rest.getD k ⟨"", "", ""⟩).type = "text" ∧
            (cur.getD (i + k) ⟨"", "", ""⟩).value ≠ ""))).map
          (fun k => cur.getD (i + k) ⟨"", "", ""⟩),
        ((List.range rest.length).filter (fun k =>
          decide ((rest.getD k ⟨"", "", ""⟩).value = "" ∧
            (rest.getD k ⟨"", "", ""⟩).type = "text" ∧
            (cur.getD (i + k) ⟨"", "", ""⟩).value = ""))).map
          (fun k => rest.getD k ⟨"", "", ""⟩)) := by
  intro rest
  induction rest with
  | nil =>
    intro i hlen
    simp [statusAux]
  | cons f rest ih =>
    intro i hlen
    have hi : i < cur.length := by
      simp only [List.length_cons] at hlen
      omega
    have hcur : cur[i]? = some (cur.getD i ⟨"", "", ""⟩) := by
      rw [List.getElem?_eq_getElem hi, List.getD_eq_getElem _ _ hi]
    have hih := ih (i + 1) (by simp only [List.length_cons] at hlen; omega)
    have hP := range_filter_map_cons rest.length (fun k =>
      decide (((f :: rest).getD k ⟨"", "", ""⟩).value = "" ∧
        ((f :: rest).getD k ⟨"", "", ""⟩).type = "text" ∧
        (cur.getD (i + k) ⟨"", "", ""⟩).value ≠ ""))
      (fun k => cur.getD (i + k) ⟨"", "", ""⟩)
    have hE := range_filter_map_cons rest.length (fun k =>
      decide (((f :: rest).getD k ⟨"", "", ""⟩).value = "" ∧
        ((f :: rest).getD k ⟨"", "", ""⟩).type = "text" ∧
        (cur.getD (i + k) ⟨"", "", ""⟩).value = ""))
      (fun k => (f :: rest).getD k ⟨"", "", ""⟩)
    have hPshift :
        ((List.range rest.length).filter (fun k =>
          decide (((f :: rest).getD (k + 1) ⟨"", "", ""⟩).value = "" ∧
            ((f :: rest).getD (k + 1) ⟨"", "", ""⟩).type = "text" ∧
            (cur.getD (i + (k + 1)) ⟨"", "", ""⟩).value ≠ ""))).map
          (fun k => cur.getD (i + (k + 1)) ⟨"", "", ""⟩) =
        ((List.range rest.length).filter (fun k =>
          decide ((rest.getD k ⟨"", "", ""⟩).value = "" ∧
            (rest.getD k ⟨"", "", ""⟩).type = "text" ∧
            (cur.getD (i + 1 + k) ⟨"", "", ""⟩).value ≠ ""))).map
          (fun k => cur.getD (i + 1 + k) ⟨"", "", ""⟩) := by
      rw [List.filter_congr fun k _ => by
        rw [List.getD_cons_succ, show i + (k + 1) = i + 1 + k from by omega]]
      refine List.map_congr_left fun k _ => by
        rw [show i + (k + 1) = i + 1 + k from by omega]
    have hEshift :
        ((List.range rest.length).filter (fun k =>
          decide (((f :: rest).getD (k + 1) ⟨"", "", ""⟩).value = "" ∧
            ((f :: rest).getD (k + 1) ⟨"", "", ""⟩).type = "text" ∧
            (cur.getD (i + (k + 1)) ⟨"", "", ""⟩).value = ""))).map
          (fun k => (f :: rest).getD (k + 1) ⟨"", "", ""⟩) =
        ((List.range rest.length).filter (fun k =>
          decide ((rest.getD k ⟨"", "", ""⟩).value = "" ∧
            (rest.getD k ⟨"", "", ""⟩).type = "text" ∧
            (cur.getD (i + 1 + k) ⟨"", "", ""⟩).value = ""))).map
          (fun k => rest.getD k ⟨"", "", ""⟩) := by
      rw [List.filter_congr fun k _ => by
        rw [List.getD_cons_succ, show i + (k + 1) = i + 1 + k from by omega]]
      refine List.map_congr_left fun k _ => by rw [List.getD_cons_succ]
    rw [List.length_cons, hP, hE, hPshift, hEshift]
    simp only [List.getD_cons_zero, Nat.add_zero]
    unfold statusAux
    by_cases hcond : f.value = "" ∧ f.type = "text"
    · rw [if_pos hcond, hcur, hih]
      dsimp only
      by_cases hv : f.value = (cur.getD i ⟨"", "", ""⟩).value
      · rw [if_pos hv]
        have hcv : (cur.getD i ⟨"", "", ""⟩).value = "" := by
          rw [← hv, hcond.1]
        rw [if_neg (by
            simp only [decide_eq_true_eq]
            rintro ⟨-, -, hne⟩
            exact hne hcv),
          if_pos (decide_eq_true ⟨hcond.1, hcond.2, hcv⟩)]
        rfl
      · rw [if_neg hv]
        have hcv : (cur.getD i ⟨"", "", ""⟩).value ≠ "" := by
          intro he
          exact hv (by rw [he, hcond.1])
        rw [if_pos (decide_eq_true ⟨hcond.1, hcond.2, hcv⟩),
          if_neg (by
            simp only [decide_eq_true_eq]
            rintro ⟨-, -, he⟩
            exact hcv he)]
        rfl
    · rw [if_neg hcond, hih]
      rw [if_neg (by
          simp only [decide_eq_true_eq]
          rintro ⟨h1, h2, -⟩
          exact hcond ⟨h1, h2⟩),
        if_neg (by
          simp only [decide_eq_true_eq]
          rintro ⟨h1, h2, -⟩
          exact hcond ⟨h1, h2⟩)]
      rfl

/-- Claim C7 (amended): the diff is positional, but restricted to previous
fields of type `text`: among those, a field is prefilled exactly when its
previous value is empty and its current value non-empty, and still-empty
exactly when both are empty; fields of any other type are never
classified. -/
theorem C7_amended (previous_form current_form : DraftForm)
    (hlen : previous_form.fields.length ≤ current_form.fields.length) :
    get_prefilled_fields_status previous_form current_form =
      some (codePrefilled previous_form.fields current_form.fields,
            codeStillEmpty previous_form.fields current_form.fields) := by
  unfold get_prefilled_fields_status codePrefilled codeStillEmpty
  have h := statusAux_spec current_form.fields previous_form.fields 0 (by omega)
  simpa using h

/-- Claim C7, witness for the amended theorem on concrete two-field
forms. -/
theorem C7_witness :
    get_prefilled_fields_status ⟨[⟨"a", "text", ""⟩, ⟨"b", "text", ""⟩]⟩
        ⟨[⟨"a", "text", "1"⟩, ⟨"b", "text", ""⟩]⟩ =
      some (codePrefilled [⟨"a", "text", ""⟩, ⟨"b", "text", ""⟩]
              [⟨"a", "text", "1"⟩, ⟨"b", "text", ""⟩],
            codeStillEmpty [⟨"a", "text", ""⟩, ⟨"b", "text", ""⟩]
              [⟨"a", "text", "1"⟩, ⟨"b", "text", ""⟩]) :=
  C7_amended ⟨[⟨"a", "text", ""⟩, ⟨"b", "text", ""⟩]⟩
    ⟨[⟨"a", "text", "1"⟩, ⟨"b", "text", ""⟩]⟩ (by decide)

-- ## Claim C8 (separator-row detection)

/-- The claim's separator-line condition (spec §4.3 step 2): only pipes,
colons, hyphens and whitespace; at least one run of 2+ hyphens or a
colon-hyphen combination; no alphanumeric characters. -/
def specSeparatorLine (l : List Char) : Bool :=
  l.all (fun c => decide (c = '|' ∨ c = ':' ∨ c = '-' ∨ isPySpace c = true)) &&
  (containsSeq ['-', '-'] l || containsSeq [':', '-'] l) &&
  l.all (fun c => !c.isAlphanum)

/-- The claim's "standard table" condition: the line at index 1 is a
separator line (at least two lines must exist). -/
def specStandard (lines : List (List Char)) : Bool :=
  decide (2 ≤ lines.length) && specSeparatorLine (lines.getD 1 [])

/-- Claim C8, counterexample: for `|a|\n|--|\n|1|` the line at index 1
(`|--|`) satisfies the claim's separator condition (only pipes and
hyphens, a run of two hyphens, no alphanumerics), yet the parser does NOT
treat the table as standard: excel.py line 295 demands a literal `---` or
`:--` substring.  (The code also requires at least 3 lines and merely
forbids alphanumerics outside `|:-` instead of restricting to the
claim's character set — further divergences from the claim.) -/
theorem C8_counterexample :
    is_markdown_table (splitOnChar '\n' (pyStrip ("|a|\n|--|\n|1|" : String).data)) = false ∧
    specStandard (splitOnChar '\n' (pyStrip ("|a|\n|--|\n|1|" : String).data)) = true := by
  decide

/-- Claim C8 (amended): the parser treats the table as standard exactly
when there are at least 3 lines and the line at index 1 contains `---` or
`:--` while every character of it outside pipes, colons and hyphens is
non-alphanumeric; in that case line 0 is the header, line 1 is skipped
and lines 2 onward are the data rows, as the spec scenario's parse
(two data rows, separator dropped, numeric ID column) shows. -/
theorem C8_amended :
    (∀ lines : List (List Char), is_markdown_table lines = true ↔
      3 ≤ lines.length ∧
      (containsSeq ['-', '-', '-'] (lines.getD 1 []) = true ∨
        containsSeq [':', '-', '-'] (lines.getD 1 []) = true) ∧
      ∀ c ∈ lines.getD 1 [], ¬ (c = '|' ∨ c = ':' ∨ c = '-') → c.isAlphanum = false) ∧
    markdown_to_df "| ID | Name |\n|----|------|\n| 1  | Alice |\n| 2  | Bob |" =
      MdResult.returned ⟨["ID ", "Name "],
        [[DCell.num 1, DCell.num 2], [DCell.str "Alice ", DCell.str "Bob "]]⟩ := by
  constructor
  · intro lines
    unfold is_markdown_table
    rw [Bool.and_eq_true, Bool.and_eq_true]
    constructor
    · rintro ⟨h1, h2, h3⟩
      refine ⟨of_decide_eq_true h1, by rwa [Bool.or_eq_true] at h2, ?_⟩
      intro c hc hnot
      have hmem : c ∈ (lines.getD 1 []).filter
          (fun c => decide (¬ (c = '|' ∨ c = ':' ∨ c = '-'))) :=
        List.mem_filter.mpr ⟨hc, decide_eq_true hnot⟩
      have := List.all_eq_true.mp h3 c hmem
      simpa using this
    · rintro ⟨h1, h2, h3⟩
      refine ⟨decide_eq_true h1, by rwa [Bool.or_eq_true], ?_⟩
      rw [List.all_eq_true]
      intro c hc
      rcases List.mem_filter.mp hc with ⟨hcm, hdec⟩
      have hnot : ¬ (c = '|' ∨ c = ':' ∨ c = '-') := of_decide_eq_true hdec
      simpa using h3 c hcm hnot
  · decide

/-- Claim C8, witness instantiating the amended equivalence at a concrete
standard table. -/
theorem C8_witness :
    is_markdown_table [['|', 'a', '|'], ['|', '-', '-', '-', '|'], ['|', '1', '|']] = true ↔
      3 ≤ ([['|', 'a', '|'], ['|', '-', '-', '-', '|'], ['|', '1', '|']] :
        List (List Char)).length ∧
      (containsSeq ['-', '-', '-'] (([['|', 'a', '|'], ['|', '-', '-', '-', '|'],
          ['|', '1', '|']] : List (List Char)).getD 1 []) = true ∨
        containsSeq [':', '-', '-'] (([['|', 'a', '|'], ['|', '-', '-', '-', '|'],
          ['|', '1', '|']] : List (List Char)).getD 1 []) = true) ∧
      ∀ c ∈ ([['|', 'a', '|'], ['|', '-', '-', '-', '|'], ['|', '1', '|']] :
          List (List Char)).getD 1 [],
        ¬ (c = '|' ∨ c = ':' ∨ c = '-') → c.isAlphanum = false :=
  C8_amended.1 [['|', 'a', '|'], ['|', '-', '-', '-', '|'], ['|', '1', '|']]

-- ## Claim C9 (unnamed-sheet naming)

/-- Claim C9: an unnamed `## Sheet:` heading is assigned `Sheet{n}` where
`n` is one more than the number of sheets stored so far — the previous
section counts exactly when it was saved (non-blank), so dropped empty
sections do not count.  The concrete splits confirm the first unnamed
heading becomes `Sheet1` with no stored predecessor, `Sheet2` after one
stored sheet, and `Sheet1` again when the preceding section was dropped
as empty. -/
theorem C9_unnamed_sheet_naming :
    (∀ (st : SheetAcc) (line : List Char),
      startsWithSeq "## Sheet:".data line = true →
      (pyStrip (removeSeq "## Sheet:".data line)).isEmpty = true →
      (sheetStep st line).current =
        some ("Sheet" ++ toString ((saveCurrent st).length + 1))) ∧
    extract_excel_sheet_content "## Sheet:\n|a|" = [("Sheet1", "|a|")] ∧
    extract_excel_sheet_content "## Sheet: A\n|x|\n## Sheet:\n|y|" =
      [("A", "|x|"), ("Sheet2", "|y|")] ∧
    extract_excel_sheet_content "## Sheet: A\n## Sheet:\n|y|" = [("Sheet1", "|y|")] := by
  refine ⟨?_, by decide, by decide, by decide⟩
  intro st line h1 h2
  unfold sheetStep
  rw [if_pos h1]
  show some (if (pyStrip (removeSeq "## Sheet:".data line)).isEmpty = true then
      "Sheet" ++ toString ((saveCurrent st).length + 1)
    else String.mk (pyStrip (removeSeq "## Sheet:".data line))) =
    some ("Sheet" ++ toString ((saveCurrent st).length + 1))
  rw [if_pos h2]

/-- Claim C9, witness: a heading with an empty name after one stored
sheet is assigned the next default name. -/
theorem C9_witness :
    (sheetStep ⟨[("A", "|x|")], none, []⟩ ("## Sheet:  ".data)).current =
      some ("Sheet" ++ toString ((saveCurrent ⟨[("A", "|x|")], none, []⟩).length + 1)) :=
  C9_unnamed_sheet_naming.1 ⟨[("A", "|x|")], none, []⟩ ("## Sheet:  ".data)
    (by decide) (by decide)

-- ## Claim C4 (row-preservation warning)

/-- Claim C4: when the message yields non-empty pipe-containing table
content and the form has a markdown field, `update_draft_form` applies
the update unconditionally (the warning never blocks or reverts it) and
the warning fires exactly when the new pipe-line count is strictly below
the previous one. -/
theorem C4_row_preservation (draft_form : DraftForm) (message : String)
    (i : Nat) (f : FormField)
    (hidx : findMarkdownFieldIdx draft_form.fields = some i)
    (hf : draft_form.fields[i]? = some f)
    (hc : extract_form_content message ≠ "")
    (hp : (extract_form_content message).data.contains '|' = true) :
    update_draft_form draft_form message =
      ⟨draft_form.fields.set i { f with value := extract_form_content message }⟩ ∧
    (update_draft_form_warning draft_form message = true ↔
      countPipeLines (extract_form_content message) < countPipeLines f.value) := by
  have hguard : ¬ (extract_form_content message = "" ∨
      (extract_form_content message).data.contains '|' = false) := by
    rintro (h | h)
    · exact hc h
    · rw [hp] at h
      simp at h
  constructor
  · unfold update_draft_form
    rw [if_neg hguard, hidx]
    dsimp only
    rw [hf]
  · unfold update_draft_form_warning
    rw [if_neg hguard, hidx]
    dsimp only
    rw [hf]
    dsimp only
    by_cases hv : f.value ≠ ""
    · rw [if_pos hv]
      exact decide_eq_true_iff
    · rw [if_neg hv]
      push_neg at hv
      rw [hv]
      have hz : countPipeLines "" = 0 := by decide
      rw [hz]
      simp

/-- Claim C4, witness: a concrete 5-pipe-line markdown field updated from
a 3-pipe-line `<form>` message — the update is applied and the warning
fires (3 < 5). -/
theorem C4_witness :
    update_draft_form ⟨[⟨"Excel Content", "markdown", "|a|\n|b|\n|c|\n|d|\n|e|"⟩]⟩
        "<form>|x|\n|y|\n|z|</form>" =
      ⟨[⟨"Excel Content", "markdown", "|a|\n|b|\n|c|\n|d|\n|e|"⟩].set 0
        { (⟨"Excel Content", "markdown", "|a|\n|b|\n|c|\n|d|\n|e|"⟩ : FormField) with
          value := extract_form_content "<form>|x|\n|y|\n|z|</form>" }⟩ ∧
    (update_draft_form_warning ⟨[⟨"Excel Content", "markdown", "|a|\n|b|\n|c|\n|d|\n|e|"⟩]⟩
        "<form>|x|\n|y|\n|z|</form>" = true ↔
      countPipeLines (extract_form_content "<form>|x|\n|y|\n|z|</form>") <
        countPipeLines (⟨"Excel Content", "markdown",
          "|a|\n|b|\n|c|\n|d|\n|e|"⟩ : FormField).value) :=
  C4_row_preservation ⟨[⟨"Excel Content", "markdown", "|a|\n|b|\n|c|\n|d|\n|e|"⟩]⟩
    "<form>|x|\n|y|\n|z|</form>" 0
    ⟨"Excel Content", "markdown", "|a|\n|b|\n|c|\n|d|\n|e|"⟩
    (by decide) (by decide) (by decide) (by decide)

-- ## Claim C10 (no-op guarantee of update_draft_form)

/-- Claim C10: when the message yields no extractable table content (empty
or pipe-free extraction) or the form has no markdown field,
`update_draft_form` returns the input form with every field unchanged.
The source's exception handler also returns the input form, and no
mutation precedes a fallible statement there, so no path leaves the form
partially modified. -/
theorem C10_noop (draft_form : DraftForm) (message : String)
    (h : extract_form_content message = "" ∨
         (extract_form_content message).data.contains '|' = false ∨
         ∀ f ∈ draft_form.fields, ¬ f.type = "markdown") :
    update_draft_form draft_form message = draft_form := by
  unfold update_draft_form
  rcases h with h | h | h
  · rw [if_pos (Or.inl h)]
  · rw [if_pos (Or.inr h)]
  · by_cases hg : extract_form_content message = "" ∨
        (extract_form_content message).data.contains '|' = false
    · rw [if_pos hg]
    · rw [if_neg hg]
      have hidx : findMarkdownFieldIdx draft_form.fields = none := by
        unfold findMarkdownFieldIdx
        rw [List.findIdx?_eq_none_iff]
        intro f hf
        simpa using h f hf
      rw [hidx]

/-- Claim C10, witness: a pipe-free message leaves a concrete form
unchanged. -/
theorem C10_witness :
    update_draft_form ⟨[⟨"a", "text", "v"⟩]⟩ "hello" = ⟨[⟨"a", "text", "v"⟩]⟩ :=
  C10_noop ⟨[⟨"a", "text", "v"⟩]⟩ "hello" (Or.inl (by decide))

-- ## Claim C1 (round-trip)

/-- Cell agreement exactly as the claim states it: numbers numerically,
strings exactly. -/
def cellAgrees : Cell → DCell → Prop
  | Cell.num n, DCell.num q => q = (n : ℚ)
  | Cell.str s, DCell.str s2 => s2 = s
  | _, _ => False

/-- Cell agreement up to the padding the codec actually introduces:
numbers numerically, strings after stripping surrounding whitespace. -/
def cellAgreesTrim : Cell → DCell → Prop
  | Cell.num n, DCell.num q => q = (n : ℚ)
  | Cell.str s, DCell.str s2 => pyStrip s2.data = pyStrip s.data
  | _, _ => False

/-- A well-behaved column name: non-blank and free of pipes and
newlines. -/
def goodName (s : String) : Prop :=
  pyStrip s.data ≠ [] ∧ '|' ∉ s.data ∧ '\n' ∉ s.data

/-- A well-behaved cell: a number, or a non-blank string free of pipes
and newlines that does not itself parse as a number. -/
def goodCell : Cell → Prop
  | Cell.num _ => True
  | Cell.str s =>
    pyStrip s.data ≠ [] ∧ '|' ∉ s.data ∧ '\n' ∉ s.data ∧ parseNum s.data = none

/-- The decoded value of one encoded cell: numbers numerically; strings
lose their leading whitespace to `skipinitialspace` and keep the
alignment padding plus the single field-separating space. -/
def decodedCell (t : LogicalTable) (j : Nat) : Cell → DCell
  | Cell.num v => DCell.num ((v : ℚ))
  | Cell.str s => DCell.str (String.mk (pyLStrip s.data ++
      (List.replicate (colWidth t j - s.data.length) ' ' ++ [' '])))

/-- The padded header fields of the encoded table. -/
def headerFieldsE (t : LogicalTable) : List (List Char) :=
  (List.range t.columns.length).map fun j =>
    renderField (colNumeric t j) (colWidth t j) ((t.columns.getD j "").data)

/-- The separator fields of the encoded table. -/
def sepFieldsE (t : LogicalTable) : List (List Char) :=
  (List.range t.columns.length).map fun j => sepField (colNumeric t j) (colWidth t j)

/-- The padded data fields of one encoded row. -/
def rowFieldsE (t : LogicalTable) (r : List Cell) : List (List Char) :=
  (List.range t.columns.length).map fun j =>
    renderField (colNumeric t j) (colWidth t j) (renderCell (r.getD j (Cell.str "")))

/-- The encoded table as a list of lines. -/
def encodeLines (t : LogicalTable) : List (List Char) :=
  renderLine (headerFieldsE t) :: renderLine (sepFieldsE t) ::
    t.rows.map (fun r => renderLine (rowFieldsE t r))

/-- The stripped fields column `j` receives from the reader. -/
def colFieldsE (t : LogicalTable) (j : Nat) : List (List Char) :=
  t.rows.map fun r =>
    pyLStrip (renderField (colNumeric t j) (colWidth t j) (renderCell (r.getD j (Cell.str ""))))

/-- The data frame the round-trip actually produces. -/
def decodedDf (t : LogicalTable) : Df :=
  ⟨(List.range t.columns.length).map (fun j => String.mk (pyLStrip (renderField
      (colNumeric t j) (colWidth t j) ((t.columns.getD j "").data)))),
   (List.range t.columns.length).map (fun j =>
     t.rows.map (fun r => decodedCell t j (r.getD j (Cell.str ""))))⟩

theorem to_markdown_table_eq (t : LogicalTable) :
    to_markdown_table t = String.mk (List.intercalate ['\n'] (encodeLines t)) := rfl

/-- Claim C1, counterexample: encoding the table with single column
`Name` and single string cell `Al` and decoding it back yields the cell
`"Al     "` — tabulate pads cells to the column width and pandas keeps
the trailing padding (`skipinitialspace` strips only leading
whitespace), so strings do not round-trip exactly (nor do column
names). -/
theorem C1_counterexample :
    markdown_to_df (to_markdown_table ⟨["Name"], [[Cell.str "Al"]]⟩) =
      MdResult.returned ⟨["Name   "], [[DCell.str "Al     "]]⟩ ∧
    ¬ cellAgrees (Cell.str "Al") (DCell.str "Al     ") ∧
    ("Name   " : String) ≠ "Name" := by
  refine ⟨by decide, ?_, by decide⟩
  intro h
  have h2 : ("Al     " : String) = "Al" := h
  exact absurd h2 (by decide)

-- Structural lemmas about rendered lines

theorem intercalate_cons_cons {c : Char} (a b : List Char) (rest : List (List Char)) :
    List.intercalate [c] (a :: b :: rest) = a ++ c :: List.intercalate [c] (b :: rest) := by
  simp only [List.intercalate, List.intersperse]
  simp [List.flatten]

theorem intercalate_cons_ne_nil {c : Char} (a : List Char) {rest : List (List Char)}
    (h : rest ≠ []) :
    List.intercalate [c] (a :: rest) = a ++ c :: List.intercalate [c] rest := by
  cases rest with
  | nil => exact absurd rfl h
  | cons b rest' => exact intercalate_cons_cons a b rest'

theorem intercalate_singleton {c : Char} (p : List Char) :
    List.intercalate [c] [p] = p := by
  simp [List.intercalate, List.intersperse, List.flatten]

theorem intercalate_concat_nil {c : Char} :
    ∀ (parts : List (List Char)) (p : List Char),
      List.intercalate [c] ((p :: parts) ++ [[]]) =
        List.intercalate [c] (p :: parts) ++ [c] := by
  intro parts
  induction parts with
  | nil =>
    intro p
    rw [show ((p :: []) ++ [[]] : List (List Char)) = [p, []] from rfl,
      intercalate_cons_cons, intercalate_singleton, intercalate_singleton]
  | cons q rest ih =>
    intro p
    rw [show ((p :: q :: rest) ++ [[]] : List (List Char)) = p :: ((q :: rest) ++ [[]]) from
        rfl,
      intercalate_cons_ne_nil p (by simp), ih q, intercalate_cons_cons]
    simp

theorem renderLine_eq (fields : List (List Char)) :
    renderLine fields = List.intercalate ['|'] ([] :: fields) ++ ['|'] := by
  unfold renderLine
  exact intercalate_concat_nil fields []

theorem renderLine_cons_decomp (f : List Char) (fs : List (List Char)) :
    renderLine (f :: fs) =
      '|' :: (f ++ '|' :: List.intercalate ['|'] (fs ++ [[]])) := by
  unfold renderLine
  rw [show ([] :: ((f :: fs) ++ [[]]) : List (List Char)) = [] :: f :: (fs ++ [[]]) from rfl,
    intercalate_cons_cons, intercalate_cons_ne_nil f (by simp)]
  rfl

theorem renderLine_head (fields : List (List Char)) :
    ∃ rest, renderLine fields = '|' :: rest := by
  cases fields with
  | nil =>
    refine ⟨[], ?_⟩
    rw [renderLine_eq]
    rfl
  | cons f fs => exact ⟨_, renderLine_cons_decomp f fs⟩

theorem renderLine_getLast (fields : List (List Char)) :
    (renderLine fields).getLast? = some '|' := by
  rw [renderLine_eq]
  exact List.getLast?_concat _

theorem pipe_mem_renderLine (fields : List (List Char)) : '|' ∈ renderLine fields := by
  rcases renderLine_head fields with ⟨rest, h⟩
  rw [h]
  exact List.mem_cons_self _ _

theorem mem_intercalate_sep {c x : Char} :
    ∀ {parts : List (List Char)}, x ∈ List.intercalate [c] parts →
      x = c ∨ ∃ p ∈ parts, x ∈ p := by
  intro parts
  induction parts with
  | nil =>
    intro h
    rw [show (List.intercalate [c] [] : List Char) = [] from rfl] at h
    exact absurd h (List.not_mem_nil x)
  | cons p rest ih =>
    intro h
    cases rest with
    | nil =>
      rw [intercalate_singleton] at h
      exact Or.inr ⟨p, by simp, h⟩
    | cons q rest' =>
      rw [intercalate_cons_cons] at h
      rcases List.mem_append.mp h with h | h
      · exact Or.inr ⟨p, by simp, h⟩
      · rcases List.mem_cons.mp h with h | h
        · exact Or.inl h
        · rcases ih h with h | ⟨r, hr, hx⟩
          · exact Or.inl h
          · exact Or.inr ⟨r, List.mem_cons_of_mem p hr, hx⟩

theorem mem_renderLine {x : Char} {fields : List (List Char)}
    (h : x ∈ renderLine fields) : x = '|' ∨ ∃ f ∈ fields, x ∈ f := by
  rw [renderLine_eq] at h
  rcases List.mem_append.mp h with h | h
  · rcases mem_intercalate_sep h with h | ⟨p, hp, hx⟩
    · exact Or.inl h
    · rcases List.mem_cons.mp hp with hp | hp
      · subst hp
        exact absurd hx (List.not_mem_nil x)
      · exact Or.inr ⟨p, hp, hx⟩
  · exact Or.inl (by simpa using h)

theorem mem_renderField {x : Char} {b : Bool} {w : Nat} {content : List Char}
    (h : x ∈ renderField b w content) : x = ' ' ∨ x ∈ content := by
  unfold renderField at h
  rcases List.mem_cons.mp h with h | h
  · exact Or.inl h
  · rcases List.mem_append.mp h with h | h
    · cases b with
      | false =>
        unfold padListRight at h
        simp only [if_neg Bool.false_ne_true] at h
        rcases List.mem_append.mp h with h | h
        · exact Or.inr h
        · exact Or.inl (List.eq_of_mem_replicate h)
      | true =>
        unfold padListLeft at h
        simp only [if_pos rfl] at h
        rcases List.mem_append.mp h with h | h
        · exact Or.inl (List.eq_of_mem_replicate h)
        · exact Or.inr h
    · exact Or.inl (by simpa using h)

theorem mem_sepField {x : Char} {b : Bool} {w : Nat} (h : x ∈ sepField b w) :
    x = '-' ∨ x = ':' := by
  unfold sepField at h
  cases b with
  | false =>
    simp only [if_neg Bool.false_ne_true] at h
    rcases List.mem_cons.mp h with h | h
    · exact Or.inr h
    · exact Or.inl (List.eq_of_mem_replicate h)
  | true =>
    simp only [if_pos rfl] at h
    rcases List.mem_append.mp h with h | h
    · exact Or.inl (List.eq_of_mem_replicate h)
    · exact Or.inr (by simpa using h)

theorem getLast?_eq_head?_reverse {α : Type} (l : List α) : l.getLast? = l.reverse.head? := by
  induction l with
  | nil => rfl
  | cons x xs ih =>
    cases hxs : xs with
    | nil => rfl
    | cons y ys =>
      rw [← hxs, List.reverse_cons]
      have hne : xs.reverse ≠ [] := by rw [hxs]; simp
      rcases hxr : xs.reverse with _ | ⟨z, zs⟩
      · exact absurd hxr hne
      · have h1 : (x :: xs).getLast? = xs.getLast? := by
          rw [hxs]
          exact List.getLast?_cons_cons
        rw [h1, ih, hxr]
        rfl

theorem pyStrip_eq_self {l : List Char}
    (hh : ∀ c, l.head? = some c → isPySpace c = false)
    (hl : ∀ c, l.getLast? = some c → isPySpace c = false) :
    pyStrip l = l := by
  cases l with
  | nil => rfl
  | cons x xs =>
    have hx : isPySpace x = false := hh x rfl
    unfold pyStrip
    rw [List.dropWhile_cons, if_neg (by simp [hx])]
    rcases hrev : (x :: xs).reverse with _ | ⟨y, ys⟩
    · exact absurd hrev (by simp)
    · have hy : (x :: xs).getLast? = some y := by
        rw [getLast?_eq_head?_reverse, hrev]
        rfl
      have hyn : isPySpace y = false := hl y hy
      rw [List.dropWhile_cons, if_neg (by simp [hyn]), ← hrev,
        List.reverse_reverse]

-- Character-class facts about encoded fields

theorem mem_intToChars {x : Char} {v : Int} (h : x ∈ intToChars v) :
    isDigitChar x = true ∨ x = '-' := by
  cases v with
  | ofNat n => exact Or.inl (natToChars_all_digits n x h)
  | negSucc m =>
    rcases List.mem_cons.mp h with h | h
    · exact Or.inr h
    · exact Or.inl (natToChars_all_digits (m + 1) x h)

theorem intToChars_ne_nil (v : Int) : intToChars v ≠ [] := by
  cases v with
  | ofNat n => exact natToChars_ne_nil n
  | negSucc m => simp [intToChars]

theorem intToChars_no_pipe {v : Int} : '|' ∉ intToChars v := by
  intro h
  rcases mem_intToChars h with h | h
  · exact absurd rfl (digit_ne_char h (by right; decide))
  · exact absurd h (by decide)

theorem intToChars_no_newline {v : Int} : '\n' ∉ intToChars v := by
  intro h
  rcases mem_intToChars h with h | h
  · exact absurd rfl (digit_ne_char h (by left; decide))
  · exact absurd h (by decide)

theorem intToChars_not_space {x : Char} {v : Int} (h : x ∈ intToChars v) :
    isPySpace x = false := by
  rcases mem_intToChars h with h | h
  · exact digit_not_space h
  · subst h; decide

theorem pyLStrip_intToChars (v : Int) : pyLStrip (intToChars v) = intToChars v := by
  rcases hv : intToChars v with _ | ⟨c, cs⟩
  · rfl
  · have hc : isPySpace c = false := intToChars_not_space (by rw [hv]; simp)
    unfold pyLStrip
    rw [List.dropWhile_cons, if_neg (by simp [hc])]

theorem renderCell_no_pipe {c : Cell} (h : goodCell c) : '|' ∉ renderCell c := by
  cases c with
  | num v => exact intToChars_no_pipe
  | str s => exact h.2.1

theorem renderCell_no_newline {c : Cell} (h : goodCell c) : '\n' ∉ renderCell c := by
  cases c with
  | num v => exact intToChars_no_newline
  | str s => exact h.2.2.1

theorem renderField_no_pipe {b : Bool} {w : Nat} {content : List Char}
    (h : '|' ∉ content) : '|' ∉ renderField b w content := by
  intro hmem
  rcases mem_renderField hmem with h1 | h1
  · exact absurd h1 (by decide)
  · exact h h1

theorem renderField_no_newline {b : Bool} {w : Nat} {content : List Char}
    (h : '\n' ∉ content) : '\n' ∉ renderField b w content := by
  intro hmem
  rcases mem_renderField hmem with h1 | h1
  · exact absurd h1 (by decide)
  · exact h h1

theorem sepField_no_newline {b : Bool} {w : Nat} : '\n' ∉ sepField b w := by
  intro hmem
  rcases mem_sepField hmem with h | h <;> exact absurd h (by decide)

theorem sepField_no_pipe {b : Bool} {w : Nat} : '|' ∉ sepField b w := by
  intro hmem
  rcases mem_sepField hmem with h | h <;> exact absurd h (by decide)

-- Substring facts for the separator line

theorem containsSeq_of_startsWith {pat l : List Char} (h : startsWithSeq pat l = true) :
    containsSeq pat l = true := by
  cases l with
  | nil => exact h
  | cons x xs =>
    unfold containsSeq
    rw [Bool.or_eq_true]
    exact Or.inl h

theorem containsSeq_cons_of {pat l : List Char} (x : Char)
    (h : containsSeq pat l = true) : containsSeq pat (x :: l) = true := by
  unfold containsSeq
  rw [Bool.or_eq_true]
  exact Or.inr h

theorem startsWithSeq_append_right {pat : List Char} :
    ∀ {a : List Char} (b : List Char), startsWithSeq pat a = true →
      startsWithSeq pat (a ++ b) = true := by
  induction pat with
  | nil => intro a b _; rfl
  | cons p ps ih =>
    intro a b h
    cases a with
    | nil => simp [startsWithSeq] at h
    | cons x xs =>
      unfold startsWithSeq at h
      rw [Bool.and_eq_true] at h
      show (p == x && startsWithSeq ps (xs ++ b)) = true
      rw [Bool.and_eq_true]
      exact ⟨h.1, ih b h.2⟩

theorem containsSeq_append_left {pat : List Char} :
    ∀ {a : List Char} (b : List Char), containsSeq pat a = true →
      containsSeq pat (a ++ b) = true := by
  intro a
  induction a with
  | nil =>
    intro b h
    have hp : pat = [] := by
      cases pat with
      | nil => rfl
      | cons p ps => simp [containsSeq, startsWithSeq] at h
    subst hp
    cases b with
    | nil => rfl
    | cons x xs => exact containsSeq_of_startsWith rfl
  | cons x xs ih =>
    intro b h
    unfold containsSeq at h
    rw [Bool.or_eq_true] at h
    show (startsWithSeq pat (x :: (xs ++ b)) || containsSeq pat (xs ++ b)) = true
    rw [Bool.or_eq_true]
    rcases h with h | h
    · exact Or.inl (by
        have h2 := startsWithSeq_append_right (a := x :: xs) b h
        simpa using h2)
    · exact Or.inr (ih b h)

theorem startsWithSeq_replicate {c : Char} : ∀ {i m : Nat}, i ≤ m →
    startsWithSeq (List.replicate i c) (List.replicate m c) = true := by
  intro i
  induction i with
  | zero => intro m _; rfl
  | succ i ih =>
    intro m him
    cases m with
    | zero => omega
    | succ m =>
      rw [List.replicate_succ, List.replicate_succ]
      unfold startsWithSeq
      rw [Bool.and_eq_true]
      exact ⟨by simp, ih (by omega)⟩

theorem containsSeq_dash3_sepField {b : Bool} {w : Nat} (hw : 3 ≤ w) :
    containsSeq ['-', '-', '-'] (sepField b w) = true := by
  have hrep : containsSeq ['-', '-', '-'] (List.replicate (w + 1) '-') = true := by
    apply containsSeq_of_startsWith
    have h3 : (['-', '-', '-'] : List Char) = List.replicate 3 '-' := rfl
    rw [h3]
    exact startsWithSeq_replicate (by omega)
  unfold sepField
  cases b with
  | false =>
    rw [if_neg Bool.false_ne_true]
    exact containsSeq_cons_of ':' hrep
  | true =>
    rw [if_pos rfl]
    exact containsSeq_append_left [':'] hrep

theorem containsSeq_singleton_of_mem {c : Char} :
    ∀ {l : List Char}, c ∈ l → containsSeq [c] l = true := by
  intro l
  induction l with
  | nil => intro h; exact absurd h (List.not_mem_nil c)
  | cons x xs ih =>
    intro h
    rcases List.mem_cons.mp h with h | h
    · subst h
      apply containsSeq_of_startsWith
      show (c == c && startsWithSeq [] xs) = true
      simp [startsWithSeq]
    · exact containsSeq_cons_of x (ih h)

-- Blankness and membership facts

theorem pyStrip_eq_nil_all_space {l : List Char} (h : pyStrip l = []) :
    ∀ x ∈ l, isPySpace x = true := by
  unfold pyStrip at h
  have h2 : (l.dropWhile isPySpace).reverse.dropWhile isPySpace = [] := by
    rwa [List.reverse_eq_nil_iff] at h
  have h3 := List.dropWhile_eq_nil_iff.mp h2
  have h4 : ∀ x ∈ l.dropWhile isPySpace, isPySpace x = true := by
    intro x hx
    exact h3 x (List.mem_reverse.mpr hx)
  intro x hx
  rw [← List.takeWhile_append_dropWhile (p := isPySpace) (l := l)] at hx
  rcases List.mem_append.mp hx with h5 | h5
  · exact List.mem_takeWhile_imp h5
  · exact h4 x h5

theorem pyStrip_ne_nil_of_mem {l : List Char} {c : Char} (hc : c ∈ l)
    (hns : isPySpace c = false) : pyStrip l ≠ [] := by
  intro he
  have h := pyStrip_eq_nil_all_space he c hc
  rw [hns] at h
  simp at h

theorem getD_mem_of_lt {α : Type} (l : List α) (j : Nat) (d : α) (h : j < l.length) :
    l.getD j d ∈ l := by
  rw [List.getD_eq_getElem _ _ h]
  exact List.getElem_mem h

-- Head and last character of the encoded text

theorem getLast?_append_right {α : Type} (a : List α) {b : List α} (h : b ≠ []) :
    (a ++ b).getLast? = b.getLast? := by
  rw [getLast?_eq_head?_reverse, getLast?_eq_head?_reverse, List.reverse_append]
  rcases hb : b.reverse with _ | ⟨x, xs⟩
  · exact absurd (List.reverse_eq_nil_iff.mp hb) h
  · rfl

theorem getLast?_cons_of_ne_nil {α : Type} {l : List α} (h : l ≠ []) (a : α) :
    (a :: l).getLast? = l.getLast? := by
  cases l with
  | nil => exact absurd rfl h
  | cons b bs => exact List.getLast?_cons_cons

theorem getLast?_intercalate_pipe {c : Char} :
    ∀ {parts : List (List Char)}, parts ≠ [] →
      (∀ p ∈ parts, p.getLast? = some '|') →
      (List.intercalate [c] parts).getLast? = some '|' := by
  intro parts
  induction parts with
  | nil => intro h _; exact absurd rfl h
  | cons p rest ih =>
    intro _ hp
    cases rest with
    | nil =>
      rw [intercalate_singleton]
      exact hp p (by simp)
    | cons q rest2 =>
      rw [intercalate_cons_cons]
      have hlast : (List.intercalate [c] (q :: rest2)).getLast? = some '|' :=
        ih (by simp) (fun x hx => hp x (List.mem_cons_of_mem p hx))
      have hne : List.intercalate [c] (q :: rest2) ≠ [] := by
        intro he
        rw [he] at hlast
        simp at hlast
      rw [getLast?_append_right p (by simp), getLast?_cons_of_ne_nil hne]
      exact hlast

theorem encode_head (t : LogicalTable) :
    ∃ rest, List.intercalate ['\n'] (encodeLines t) = '|' :: rest := by
  rcases renderLine_head (headerFieldsE t) with ⟨r0, h0⟩
  refine ⟨r0 ++ '\n' :: List.intercalate ['\n'] (renderLine (sepFieldsE t) ::
    t.rows.map (fun r => renderLine (rowFieldsE t r))), ?_⟩
  unfold encodeLines
  rw [intercalate_cons_ne_nil _ (by simp), h0]
  rfl

theorem encode_getLast (t : LogicalTable) :
    (List.intercalate ['\n'] (encodeLines t)).getLast? = some '|' := by
  apply getLast?_intercalate_pipe (by simp [encodeLines])
  intro p hp
  unfold encodeLines at hp
  rcases List.mem_cons.mp hp with hp | hp
  · exact hp ▸ renderLine_getLast _
  · rcases List.mem_cons.mp hp with hp | hp
    · exact hp ▸ renderLine_getLast _
    · rcases List.mem_map.mp hp with ⟨r, _, hr⟩
      exact hr ▸ renderLine_getLast _

theorem pyStrip_encode (t : LogicalTable) :
    pyStrip (List.intercalate ['\n'] (encodeLines t)) =
      List.intercalate ['\n'] (encodeLines t) := by
  rcases encode_head t with ⟨rest, hh⟩
  apply pyStrip_eq_self
  · intro c hc
    rw [hh] at hc
    simp only [List.head?_cons, Option.some.injEq] at hc
    subst hc
    decide
  · intro c hc
    rw [encode_getLast t] at hc
    simp only [Option.some.injEq] at hc
    subst hc
    decide

theorem pipe_mem_encode (t : LogicalTable) :
    '|' ∈ List.intercalate ['\n'] (encodeLines t) := by
  rcases encode_head t with ⟨rest, hh⟩
  rw [hh]
  exact List.mem_cons_self _ _

theorem encode_ne_nil (t : LogicalTable) :
    List.intercalate ['\n'] (encodeLines t) ≠ [] := by
  rcases encode_head t with ⟨rest, hh⟩
  rw [hh]
  simp

-- Effect of lstrip on a padded field

theorem pyLStrip_cons_space (l : List Char) : pyLStrip (' ' :: l) = pyLStrip l := by
  unfold pyLStrip
  rw [List.dropWhile_cons, if_pos (by decide)]

theorem pyLStrip_ne_nil_of_pyStrip {l : List Char} (h : pyStrip l ≠ []) :
    pyLStrip l ≠ [] := by
  intro he
  apply h
  unfold pyStrip
  rw [show l.dropWhile isPySpace = [] from he]
  rfl

theorem pyLStrip_renderField (b : Bool) (w : Nat) {l : List Char}
    (h : pyLStrip l ≠ []) :
    ∃ pad, pyLStrip (renderField b w l) = pyLStrip l ++ pad ∧
      ∀ x ∈ pad, isPySpace x = true := by
  cases b with
  | false =>
    refine ⟨List.replicate (w - l.length) ' ' ++ [' '], ?_, ?_⟩
    · show pyLStrip (' ' :: ((l ++ List.replicate (w - l.length) ' ') ++ [' '])) =
        pyLStrip l ++ (List.replicate (w - l.length) ' ' ++ [' '])
      rw [pyLStrip_cons_space, List.append_assoc]
      exact pyLStrip_append_of_ne_nil _ h
    · intro x hx
      rcases List.mem_append.mp hx with hx | hx
      · rw [List.eq_of_mem_replicate hx]
        decide
      · rw [List.mem_singleton.mp hx]
        decide
  | true =>
    refine ⟨[' '], ?_, ?_⟩
    · show pyLStrip (' ' :: ((List.replicate (w - l.length) ' ' ++ l) ++ [' '])) =
        pyLStrip l ++ [' ']
      rw [pyLStrip_cons_space, List.append_assoc,
        pyLStrip_all_spaces_append _ (fun c hc => by
          rw [List.eq_of_mem_replicate hc]; decide)]
      exact pyLStrip_append_of_ne_nil _ h
    · intro x hx
      rw [List.mem_singleton.mp hx]
      decide

theorem pyStrip_pyLStrip_pad (l : List Char) {pad : List Char}
    (hpad : ∀ c ∈ pad, isPySpace c = true) :
    pyStrip (pyLStrip l ++ pad) = pyStrip l := by
  rw [pyStrip_append_spaces pad hpad, pyStrip_pyLStrip]

-- The encoded lines contain no newline, so line splitting recovers them

theorem headerFieldsE_no_pipe (t : LogicalTable)
    (hnames : ∀ s ∈ t.columns, goodName s) :
    ∀ f ∈ headerFieldsE t, '|' ∉ f := by
  intro f hf
  rcases List.mem_map.mp hf with ⟨j, hj, hfe⟩
  rw [← hfe]
  exact renderField_no_pipe
    ((hnames _ (getD_mem_of_lt _ _ _ (List.mem_range.mp hj))).2.1)

theorem sepFieldsE_no_pipe (t : LogicalTable) :
    ∀ f ∈ sepFieldsE t, '|' ∉ f := by
  intro f hf
  rcases List.mem_map.mp hf with ⟨j, _, hfe⟩
  rw [← hfe]
  exact sepField_no_pipe

theorem rowFieldsE_no_pipe (t : LogicalTable) {r : List Cell}
    (hr : r.length = t.columns.length)
    (hc : ∀ c ∈ r, goodCell c) :
    ∀ f ∈ rowFieldsE t r, '|' ∉ f := by
  intro f hf
  rcases List.mem_map.mp hf with ⟨j, hj, hfe⟩
  rw [← hfe]
  refine renderField_no_pipe (renderCell_no_pipe ?_)
  exact hc _ (getD_mem_of_lt _ _ _ (hr ▸ List.mem_range.mp hj))

theorem encodeLines_no_newline (t : LogicalTable)
    (hnames : ∀ s ∈ t.columns, goodName s)
    (hlen : ∀ r ∈ t.rows, r.length = t.columns.length)
    (hcells : ∀ r ∈ t.rows, ∀ c ∈ r, goodCell c) :
    ∀ l ∈ encodeLines t, '\n' ∉ l := by
  have hfield : ∀ (fields : List (List Char)), (∀ f ∈ fields, '\n' ∉ f) →
      '\n' ∉ renderLine fields := by
    intro fields hf hmem
    rcases mem_renderLine hmem with h | ⟨f, hfm, hx⟩
    · exact absurd h (by decide)
    · exact hf f hfm hx
  intro l hl
  unfold encodeLines at hl
  rcases List.mem_cons.mp hl with hl | hl
  · subst hl
    refine hfield _ ?_
    intro f hf
    rcases List.mem_map.mp hf with ⟨j, hj, hfe⟩
    rw [← hfe]
    exact renderField_no_newline
      ((hnames _ (getD_mem_of_lt _ _ _ (List.mem_range.mp hj))).2.2)
  · rcases List.mem_cons.mp hl with hl | hl
    · subst hl
      refine hfield _ ?_
      intro f hf
      rcases List.mem_map.mp hf with ⟨j, _, hfe⟩
      rw [← hfe]
      exact sepField_no_newline
    · rcases List.mem_map.mp hl with ⟨r, hrm, hre⟩
      rw [← hre]
      refine hfield _ ?_
      intro f hf
      rcases List.mem_map.mp hf with ⟨j, hj, hfe⟩
      rw [← hfe]
      refine renderField_no_newline (renderCell_no_newline ?_)
      exact hcells r hrm _
        (getD_mem_of_lt _ _ _ ((hlen r hrm) ▸ List.mem_range.mp hj))

theorem splitLines_encode (t : LogicalTable)
    (hnames : ∀ s ∈ t.columns, goodName s)
    (hlen : ∀ r ∈ t.rows, r.length = t.columns.length)
    (hcells : ∀ r ∈ t.rows, ∀ c ∈ r, goodCell c) :
    splitOnChar '\n' (List.intercalate ['\n'] (encodeLines t)) = encodeLines t :=
  splitOnChar_intercalate '\n' (encodeLines t) (by simp [encodeLines])
    (encodeLines_no_newline t hnames hlen hcells)

-- Splitting one encoded line on pipes recovers its fields

theorem splitOnChar_renderLine {fields : List (List Char)}
    (h : ∀ f ∈ fields, '|' ∉ f) :
    splitOnChar '|' (renderLine fields) = [] :: (fields ++ [[]]) := by
  unfold renderLine
  refine splitOnChar_intercalate '|' _ (by simp) ?_
  intro f hf
  rcases List.mem_cons.mp hf with hf | hf
  · subst hf
    exact List.not_mem_nil _
  · rcases List.mem_append.mp hf with hf | hf
    · exact h f hf
    · rw [List.mem_singleton.mp hf]
      exact List.not_mem_nil _

theorem rowFieldsOf_renderLine {fields : List (List Char)}
    (h : ∀ f ∈ fields, '|' ∉ f) :
    rowFieldsOf (renderLine fields) = [] :: (fields.map pyLStrip ++ [[]]) := by
  unfold rowFieldsOf
  rw [splitOnChar_renderLine h]
  simp [pyLStrip]

-- Indexing helpers for the reader model

theorem getD_map_range {α : Type} (f : Nat → α) {n j : Nat} (h : j < n) (d : α) :
    ((List.range n).map f).getD j d = f j := by
  rw [List.getD_eq_getElem _ _ (by simpa using h)]
  simp [h]

theorem ilocTrim_sandwich {α : Type} (a : α) (xs : List α) (b : α) :
    ilocTrim (a :: (xs ++ [b])) = xs := by
  unfold ilocTrim
  simp

theorem ilocTrim_map_range {α : Type} (g : Nat → α) (n : Nat) :
    ilocTrim ((List.range (n + 2)).map g) = (List.range n).map (fun j => g (j + 1)) := by
  unfold ilocTrim
  rw [show n + 2 = (n + 1) + 1 from rfl, List.range_succ_eq_map]
  simp only [List.map_cons, List.drop_succ_cons, List.drop_zero, List.map_map,
    List.range_succ, List.map_append, List.map_nil, List.dropLast_concat]
  rfl

theorem headD_cases {α : Type} (l : List α) (d : α) :
    l.headD d = d ∨ l.headD d ∈ l := by
  cases l with
  | nil => exact Or.inl rfl
  | cons x xs => exact Or.inr (by simp)

theorem getD_append_left {α : Type} {l : List α} (l2 : List α) {j : Nat}
    (h : j < l.length) (d : α) : (l ++ l2).getD j d = l.getD j d := by
  rw [List.getD_eq_getElem _ _ (by simp; omega), List.getD_eq_getElem _ _ h]
  exact List.getElem_append_left h

theorem getD_map_lt {α β : Type} (f : α → β) {l : List α} {i : Nat} (h : i < l.length)
    (d : β) (d2 : α) : (l.map f).getD i d = f (l.getD i d2) := by
  rw [List.getD_eq_getElem _ _ (by simpa using h), List.getD_eq_getElem _ _ h]
  simp

-- The encoded table passes the separator-row detection

theorem is_markdown_table_encode (t : LogicalTable)
    (hcols : t.columns ≠ []) (hrows : t.rows ≠ [])
    (hnames : ∀ s ∈ t.columns, goodName s) :
    is_markdown_table (encodeLines t) = true := by
  have hget : (encodeLines t).getD 1 [] = renderLine (sepFieldsE t) := rfl
  have hlen3 : 3 ≤ (encodeLines t).length := by
    have h0 : t.rows.length ≠ 0 := by
      intro h
      exact hrows (List.length_eq_zero.mp h)
    unfold encodeLines
    simp only [List.length_cons, List.length_map]
    omega
  rcases hc : t.columns with _ | ⟨c0, cs⟩
  · exact absurd hc hcols
  have hw : 3 ≤ colWidth t 0 := by
    have h1 : (t.columns.getD 0 "").data.length + 2 ≤ colWidth t 0 := le_max_left _ _
    have h2 : t.columns.getD 0 "" = c0 := by rw [hc]; rfl
    have h3 : c0.data ≠ [] := by
      intro he
      apply (hnames c0 (by rw [hc]; simp)).1
      rw [he]
      rfl
    have h4 : 1 ≤ c0.data.length := by
      rcases hd : c0.data with _ | ⟨x, xs⟩
      · exact absurd hd h3
      · simp
    rw [h2] at h1
    omega
  have hsep : ∃ rest2, sepFieldsE t =
      sepField (colNumeric t 0) (colWidth t 0) :: rest2 := by
    unfold sepFieldsE
    rw [hc, show (c0 :: cs).length = cs.length + 1 from rfl, List.range_succ_eq_map,
      List.map_cons]
    exact ⟨_, rfl⟩
  rcases hsep with ⟨rest2, hsep⟩
  have hdash : containsSeq ['-', '-', '-'] (renderLine (sepFieldsE t)) = true := by
    rw [hsep, renderLine_cons_decomp]
    apply containsSeq_cons_of
    exact containsSeq_append_left _ (containsSeq_dash3_sepField hw)
  have hchar : ∀ x ∈ renderLine (sepFieldsE t), x = '|' ∨ x = ':' ∨ x = '-' := by
    intro x hx
    rcases mem_renderLine hx with h | ⟨f, hf, hxf⟩
    · exact Or.inl h
    · rcases List.mem_map.mp hf with ⟨j, _, hfe⟩
      rw [← hfe] at hxf
      rcases mem_sepField hxf with h | h
      · exact Or.inr (Or.inr h)
      · exact Or.inr (Or.inl h)
  have hfilter : ((renderLine (sepFieldsE t)).filter
      (fun c => ¬ (c = '|' ∨ c = ':' ∨ c = '-'))) = [] := by
    refine List.filter_eq_nil_iff.mpr ?_
    intro a ha
    simp only [decide_eq_true_eq]
    exact not_not_intro (hchar a ha)
  unfold is_markdown_table
  rw [hget, Bool.and_eq_true, Bool.and_eq_true]
  refine ⟨decide_eq_true hlen3, ?_, ?_⟩
  · rw [Bool.or_eq_true]
    exact Or.inl hdash
  · rw [hfilter]
    rfl

-- Reading uniformly wide pipe lines never hits the tokenizer error

theorem read_table_h0_of_readLines {skip : Bool} {raw : List Char} {hdr : List Char}
    {rows : List (List Char)}
    (hsplit : readLines skip raw = hdr :: rows)
    (hlens : ∀ l ∈ rows, (rowFieldsOf l).length = (rowFieldsOf hdr).length) :
    read_table_h0 skip raw = Except.ok (rowFieldsOf hdr,
      (List.range (rowFieldsOf hdr).length).map (fun j =>
        typeColumn ((rows.map rowFieldsOf).map (fun r => r.getD j [])))) := by
  have hmem : ∀ r ∈ rows.map rowFieldsOf, r.length = (rowFieldsOf hdr).length := by
    intro r hr
    rcases List.mem_map.mp hr with ⟨l, hl, he⟩
    rw [← he]
    exact hlens l hl
  have hshift : readShift (rowFieldsOf hdr) (rows.map rowFieldsOf) = 0 := by
    unfold readShift
    rcases headD_cases (rows.map rowFieldsOf) (rowFieldsOf hdr) with h | h
    · rw [h]
      omega
    · rw [hmem _ h]
      omega
  unfold read_table_h0
  rw [hsplit]
  dsimp only
  rw [hshift]
  have hc : ¬ ((rows.map rowFieldsOf).any (fun r =>
      (rowFieldsOf hdr).length + 0 < r.length) = true) := by
    intro hc
    rcases List.any_eq_true.mp hc with ⟨r, hrm, hlt⟩
    rw [decide_eq_true_eq] at hlt
    rw [hmem r hrm] at hlt
    omega
  rw [if_neg hc]
  simp only [List.drop_zero]
  rw [show ((fun (r : List (List Char)) => r) : List (List Char) → List (List Char)) =
    id from rfl, List.map_id]

theorem readLines_encode (t : LogicalTable)
    (hnames : ∀ s ∈ t.columns, goodName s)
    (hlen : ∀ r ∈ t.rows, r.length = t.columns.length)
    (hcells : ∀ r ∈ t.rows, ∀ c ∈ r, goodCell c) :
    readLines true (List.intercalate ['\n'] (encodeLines t)) =
      renderLine (headerFieldsE t) ::
        t.rows.map (fun r => renderLine (rowFieldsE t r)) := by
  unfold readLines
  rw [if_pos rfl, splitLines_encode t hnames hlen hcells,
    show removeIdx1 (encodeLines t) = renderLine (headerFieldsE t) ::
      t.rows.map (fun r => renderLine (rowFieldsE t r)) from rfl]
  refine List.filter_eq_self.mpr ?_
  intro l hl
  have hp : '|' ∈ l := by
    rcases List.mem_cons.mp hl with hl | hl
    · rw [hl]
      exact pipe_mem_renderLine _
    · rcases List.mem_map.mp hl with ⟨r, _, hre⟩
      rw [← hre]
      exact pipe_mem_renderLine _
  have hne : pyStrip l ≠ [] := pyStrip_ne_nil_of_mem hp (by decide)
  simp only [decide_eq_true_eq]
  intro h2
  exact hne (by simpa using h2)

theorem mdDfAttempt1_encode (t : LogicalTable)
    (hnames : ∀ s ∈ t.columns, goodName s)
    (hlen : ∀ r ∈ t.rows, r.length = t.columns.length)
    (hcells : ∀ r ∈ t.rows, ∀ c ∈ r, goodCell c) :
    mdDfAttempt1 (List.intercalate ['\n'] (encodeLines t)) =
      Except.ok ⟨(decodedDf t).columns,
        (List.range t.columns.length).map (fun j => typeColumn (colFieldsE t j))⟩ := by
  have hH : rowFieldsOf (renderLine (headerFieldsE t)) =
      [] :: ((headerFieldsE t).map pyLStrip ++ [[]]) :=
    rowFieldsOf_renderLine (headerFieldsE_no_pipe t hnames)
  have hR : ∀ r ∈ t.rows, rowFieldsOf (renderLine (rowFieldsE t r)) =
      [] :: ((rowFieldsE t r).map pyLStrip ++ [[]]) := fun r hr =>
    rowFieldsOf_renderLine (rowFieldsE_no_pipe t (hlen r hr) (hcells r hr))
  have hHlen : (rowFieldsOf (renderLine (headerFieldsE t))).length =
      t.columns.length + 2 := by
    rw [hH]
    simp [headerFieldsE]
  have hlens : ∀ l ∈ t.rows.map (fun r => renderLine (rowFieldsE t r)),
      (rowFieldsOf l).length = (rowFieldsOf (renderLine (headerFieldsE t))).length := by
    intro l hl
    rcases List.mem_map.mp hl with ⟨r, hr, he⟩
    rw [← he, hR r hr, hHlen]
    simp [rowFieldsE]
  have hread := read_table_h0_of_readLines (readLines_encode t hnames hlen hcells) hlens
  have hcolumns : ilocTrim ((rowFieldsOf (renderLine (headerFieldsE t))).map String.mk) =
      (decodedDf t).columns := by
    rw [hH]
    simp only [List.map_cons, List.map_append, List.map_nil]
    rw [ilocTrim_sandwich, List.map_map]
    unfold headerFieldsE
    rw [List.map_map]
    rfl
  have hcols2 : ilocTrim ((List.range
        ((rowFieldsOf (renderLine (headerFieldsE t))).length)).map
      (fun j => typeColumn (((t.rows.map (fun r => renderLine (rowFieldsE t r))).map
        rowFieldsOf).map (fun r => r.getD j [])))) =
      (List.range t.columns.length).map (fun j => typeColumn (colFieldsE t j)) := by
    rw [hHlen, ilocTrim_map_range]
    refine List.map_congr_left ?_
    intro j hj
    have hjN : j < t.columns.length := List.mem_range.mp hj
    congr 1
    rw [List.map_map, List.map_map]
    unfold colFieldsE
    refine List.map_congr_left ?_
    intro r hr
    show (rowFieldsOf (renderLine (rowFieldsE t r))).getD (j + 1) [] = _
    rw [hR r hr, List.getD_cons_succ,
      getD_append_left _ (by simpa [rowFieldsE] using hjN) ([] : List Char)]
    unfold rowFieldsE
    rw [List.map_map, getD_map_range _ hjN]
    rfl
  unfold mdDfAttempt1
  rw [hread]
  dsimp only
  rw [hcolumns, hcols2]

-- Decoding one encoded cell

theorem colNumeric_false_of_str (t : LogicalTable) {j : Nat} {r : List Cell}
    (hr : r ∈ t.rows) {s : String}
    (hc : r.getD j (Cell.str "") = Cell.str s) :
    colNumeric t j = false := by
  cases hb : colNumeric t j with
  | false => rfl
  | true =>
    exfalso
    unfold colNumeric at hb
    have hmem : Cell.str s ∈ colCells t j := by
      unfold colCells
      exact List.mem_map.mpr ⟨r, hr, hc⟩
    have h2 := List.all_eq_true.mp hb _ hmem
    simp [cellIsNum] at h2

theorem perCell_decode (t : LogicalTable) {j : Nat} {r : List Cell}
    (hr : r ∈ t.rows) (hj : j < t.columns.length)
    (hlenr : r.length = t.columns.length)
    (hgood : ∀ c ∈ r, goodCell c) :
    perCellOutcome (pyLStrip (renderField (colNumeric t j) (colWidth t j)
      (renderCell (r.getD j (Cell.str ""))))) =
      decodedCell t j (r.getD j (Cell.str "")) := by
  have hmem : r.getD j (Cell.str "") ∈ r := getD_mem_of_lt _ _ _ (by omega)
  have hg := hgood _ hmem
  cases hcell : r.getD j (Cell.str "") with
  | num v =>
    rw [hcell] at hg
    show perCellOutcome (pyLStrip (renderField (colNumeric t j) (colWidth t j)
      (intToChars v))) = DCell.num ((v : ℚ))
    have hlv : pyLStrip (intToChars v) ≠ [] := by
      rw [pyLStrip_intToChars]
      exact intToChars_ne_nil v
    rcases pyLStrip_renderField (colNumeric t j) (colWidth t j) hlv with ⟨pad, hpd, hsp⟩
    rw [hpd, pyLStrip_intToChars]
    unfold perCellOutcome
    have hne3 : (intToChars v ++ pad).isEmpty = false := by
      rcases h2 : intToChars v with _ | ⟨c, cs⟩
      · exact absurd h2 (intToChars_ne_nil v)
      · rfl
    rw [if_neg (by simp [hne3]), parseNum_int_pad v pad hsp]
  | str s =>
    rw [hcell] at hg
    have hb : colNumeric t j = false := colNumeric_false_of_str t hr hcell
    rw [hb]
    have hlns : pyLStrip s.data ≠ [] := pyLStrip_ne_nil_of_pyStrip hg.1
    show perCellOutcome (pyLStrip (' ' :: ((s.data ++
        List.replicate (colWidth t j - s.data.length) ' ') ++ [' ']))) =
      DCell.str (String.mk (pyLStrip s.data ++
        (List.replicate (colWidth t j - s.data.length) ' ' ++ [' '])))
    rw [pyLStrip_cons_space, List.append_assoc, pyLStrip_append_of_ne_nil _ hlns]
    have hsp2 : ∀ c ∈ List.replicate (colWidth t j - s.data.length) ' ' ++ [' '],
        isPySpace c = true := by
      intro c hc
      rcases List.mem_append.mp hc with hc | hc
      · rw [List.eq_of_mem_replicate hc]
        decide
      · rw [List.mem_singleton.mp hc]
        decide
    unfold perCellOutcome
    have hne3 : (pyLStrip s.data ++ (List.replicate (colWidth t j - s.data.length) ' '
        ++ [' '])).isEmpty = false := by
      rcases h2 : pyLStrip s.data with _ | ⟨c, cs⟩
      · exact absurd h2 hlns
      · rfl
    rw [if_neg (by simp [hne3]),
      parseNum_congr (pyStrip_pyLStrip_pad s.data hsp2), hg.2.2.2]

theorem coerce_colFieldsE (t : LogicalTable) {j : Nat} (hj : j < t.columns.length)
    (hlen : ∀ r ∈ t.rows, r.length = t.columns.length)
    (hcells : ∀ r ∈ t.rows, ∀ c ∈ r, goodCell c) :
    coerceColumn (typeColumn (colFieldsE t j)) =
      t.rows.map (fun r => decodedCell t j (r.getD j (Cell.str ""))) := by
  rw [coerceColumn_typeColumn]
  unfold colFieldsE
  rw [List.map_map]
  refine List.map_congr_left ?_
  intro r hr
  exact perCell_decode t hr hj (hlen r hr) (hcells r hr)

-- The full round trip

theorem markdown_to_df_to_markdown (t : LogicalTable)
    (hcols : t.columns ≠ []) (hrows : t.rows ≠ [])
    (hlen : ∀ r ∈ t.rows, r.length = t.columns.length)
    (hnames : ∀ s ∈ t.columns, goodName s)
    (hcells : ∀ r ∈ t.rows, ∀ c ∈ r, goodCell c) :
    markdown_to_df (to_markdown_table t) = MdResult.returned (decodedDf t) := by
  have hdata : (to_markdown_table t).data = List.intercalate ['\n'] (encodeLines t) := rfl
  have hguard : ¬ (to_markdown_table t = "" ∨
      ¬ containsSeq ['|'] (to_markdown_table t).data = true) := by
    rintro (h | h)
    · have h2 : (to_markdown_table t).data = [] := by rw [h]
      rw [hdata] at h2
      exact encode_ne_nil t h2
    · apply h
      rw [hdata]
      exact containsSeq_singleton_of_mem (pipe_mem_encode t)
  have hX : ((List.range t.columns.length).map
      (fun j => typeColumn (colFieldsE t j))).map coerceColumn =
      (decodedDf t).colData := by
    rw [List.map_map]
    show _ = (List.range t.columns.length).map (fun j =>
      t.rows.map (fun r => decodedCell t j (r.getD j (Cell.str ""))))
    refine List.map_congr_left ?_
    intro j hj
    exact coerce_colFieldsE t (List.mem_range.mp hj) hlen hcells
  have hbody : mdDfBody (to_markdown_table t) = Except.ok (decodedDf t) := by
    unfold mdDfBody
    rw [hdata, pyStrip_encode t, splitLines_encode t hnames hlen hcells]
    rw [if_neg (show ¬ (encodeLines t).length < 2 by
      unfold encodeLines
      simp only [List.length_cons]
      omega)]
    rw [if_pos (is_markdown_table_encode t hcols hrows hnames),
      mdDfAttempt1_encode t hnames hlen hcells]
    dsimp only
    rw [hX]
  unfold markdown_to_df
  rw [if_neg hguard, hbody]

theorem decodedDf_columns_getD (t : LogicalTable) {j : Nat} (hj : j < t.columns.length) :
    (decodedDf t).columns.getD j "" = String.mk (pyLStrip (renderField
      (colNumeric t j) (colWidth t j) ((t.columns.getD j "").data))) :=
  getD_map_range _ hj ""

theorem decodedDf_colData_getD (t : LogicalTable) {j : Nat} (hj : j < t.columns.length) :
    (decodedDf t).colData.getD j [] =
      t.rows.map (fun r => decodedCell t j (r.getD j (Cell.str ""))) :=
  getD_map_range _ hj []

theorem cellAgreesTrim_decodedCell (t : LogicalTable) (j : Nat) (c : Cell) :
    cellAgreesTrim c (decodedCell t j c) := by
  cases c with
  | num v => rfl
  | str s =>
    show pyStrip (pyLStrip s.data ++
      (List.replicate (colWidth t j - s.data.length) ' ' ++ [' '])) = pyStrip s.data
    refine pyStrip_pyLStrip_pad s.data ?_
    intro c hc
    rcases List.mem_append.mp hc with hc | hc
    · rw [List.eq_of_mem_replicate hc]
      decide
    · rw [List.mem_singleton.mp hc]
      decide

/-- Claim C1 (amended): the round trip through `to_markdown` and
`markdown_to_df` succeeds and preserves the column order and count, the
row count, and the cell values up to the padding the codec introduces —
numbers numerically, strings and column names after trimming surrounding
whitespace (exact equality fails, see the counterexample); scope: at
least one column, at least one row, rows as wide as the header, names
and string cells non-blank, pipe- and newline-free, string cells not
parsing as numbers. -/
theorem C1_amended (t : LogicalTable)
    (hcols : t.columns ≠ []) (hrows : t.rows ≠ [])
    (hlen : ∀ r ∈ t.rows, r.length = t.columns.length)
    (hnames : ∀ s ∈ t.columns, goodName s)
    (hcells : ∀ r ∈ t.rows, ∀ c ∈ r, goodCell c) :
    ∃ df : Df, markdown_to_df (to_markdown_table t) = MdResult.returned df ∧
      df.columns.length = t.columns.length ∧
      (∀ j < t.columns.length,
        pyStrip (df.columns.getD j "").data = pyStrip (t.columns.getD j "").data) ∧
      df.colData.length = t.columns.length ∧
      (∀ col ∈ df.colData, col.length = t.rows.length) ∧
      (∀ j < t.columns.length, ∀ i < t.rows.length,
        cellAgreesTrim ((t.rows.getD i []).getD j (Cell.str ""))
          ((df.colData.getD j []).getD i DCell.nan)) := by
  refine ⟨decodedDf t, markdown_to_df_to_markdown t hcols hrows hlen hnames hcells,
    by simp [decodedDf], ?_, by simp [decodedDf], ?_, ?_⟩
  · intro j hj
    rw [decodedDf_columns_getD t hj]
    have hn := hnames _ (getD_mem_of_lt _ _ "" hj)
    rcases pyLStrip_renderField (colNumeric t j) (colWidth t j)
      (pyLStrip_ne_nil_of_pyStrip hn.1) with ⟨pad, hpd, hsp⟩
    show pyStrip (pyLStrip (renderField (colNumeric t j) (colWidth t j)
      ((t.columns.getD j "").data))) = _
    rw [hpd]
    exact pyStrip_pyLStrip_pad _ hsp
  · intro col hcol
    have hcol2 : col ∈ (List.range t.columns.length).map (fun j =>
        t.rows.map (fun r => decodedCell t j (r.getD j (Cell.str "")))) := hcol
    rcases List.mem_map.mp hcol2 with ⟨j, _, he⟩
    rw [← he]
    simp
  · intro j hj i hi
    rw [decodedDf_colData_getD t hj, getD_map_lt _ hi DCell.nan ([] : List Cell)]
    exact cellAgreesTrim_decodedCell t j _

/-- Witness for the amended claim C1 at the concrete table with column
`Name` and single row `Al`: all hypotheses hold and the round trip
succeeds with the guaranteed agreement. -/
theorem C1_witness :
    (⟨["Name"], [[Cell.str "Al"]]⟩ : LogicalTable).columns ≠ [] ∧
    (⟨["Name"], [[Cell.str "Al"]]⟩ : LogicalTable).rows ≠ [] ∧
    (∀ r ∈ (⟨["Name"], [[Cell.str "Al"]]⟩ : LogicalTable).rows,
      r.length = (⟨["Name"], [[Cell.str "Al"]]⟩ : LogicalTable).columns.length) ∧
    (∀ s ∈ (⟨["Name"], [[Cell.str "Al"]]⟩ : LogicalTable).columns, goodName s) ∧
    (∀ r ∈ (⟨["Name"], [[Cell.str "Al"]]⟩ : LogicalTable).rows, ∀ c ∈ r, goodCell c) ∧
    (∃ df : Df, markdown_to_df (to_markdown_table ⟨["Name"], [[Cell.str "Al"]]⟩) =
        MdResult.returned df ∧
      df.columns.length = (["Name"] : List String).length ∧
      (∀ j < (["Name"] : List String).length,
        pyStrip (df.columns.getD j "").data =
          pyStrip ((["Name"] : List String).getD j "").data) ∧
      df.colData.length = (["Name"] : List String).length ∧
      (∀ col ∈ df.colData, col.length = ([[Cell.str "Al"]] : List (List Cell)).length) ∧
      (∀ j < (["Name"] : List String).length,
        ∀ i < ([[Cell.str "Al"]] : List (List Cell)).length,
        cellAgreesTrim ((([[Cell.str "Al"]] : List (List Cell)).getD i []).getD j
            (Cell.str ""))
          ((df.colData.getD j []).getD i DCell.nan))) := by
  have hn : ∀ s ∈ (⟨["Name"], [[Cell.str "Al"]]⟩ : LogicalTable).columns, goodName s := by
    intro s hs
    rw [List.mem_singleton.mp hs]
    exact ⟨by decide, by decide, by decide⟩
  have hc : ∀ r ∈ (⟨["Name"], [[Cell.str "Al"]]⟩ : LogicalTable).rows,
      ∀ c ∈ r, goodCell c := by
    intro r hr c hcm
    rw [List.mem_singleton.mp hr] at hcm
    rw [List.mem_singleton.mp hcm]
    exact ⟨by decide, by decide, by decide, by decide⟩
  exact ⟨by decide, by decide, by decide, hn, hc,
    C1_amended ⟨["Name"], [[Cell.str "Al"]]⟩ (by decide) (by decide) (by decide) hn hc⟩
